import Mathlib

/-!
Verification of the NGSIv2 entity/attribute data model and its structural
codec (package `model` of phoops/ngsiv2, file `model.go`).

The Go code is shallowly embedded:
- Go `float64` values are modelled by their exact rational value (every
  finite float64 is a dyadic rational); the predicate `IsF64` singles out
  the rationals that are genuine float64 values.
- Go `interface{}` attribute values are modelled by the closed union
  `GoValue` of every shape the library ever stores in an attribute.
- Functions returning `(T, error)` become `GoResult T`, with an extra
  `crash` case modelling a runtime panic (a failed unchecked type
  assertion).
- Mutating methods on `*Entity` become functions returning the new entity
  together with the `error` result.
-/

set_option maxRecDepth 8000

namespace NgsiV2

/-- A Go `error` value as produced by this library: either a message built
with `fmt.Errorf`/`errors.New`, or the exported sentinel
`ErrInvalidCastingAttributeEntity`. -/
inductive GoErr where
  | msg (s : String)
  | invalidCast
  deriving DecidableEq

/-- Result of a Go call returning `(T, error)`; `crash` models a runtime
panic such as a failed unchecked type assertion. -/
inductive GoResult (α : Type) where
  | ok (a : α)
  | err (e : GoErr)
  | crash (s : String)
  deriving DecidableEq

/-- A Go `time.Time` in broken-down form: calendar fields plus the zone
offset in seconds east of UTC. The codec only ever touches these fields
(formatting and parsing), so this representation is a faithful quotient of
the Go instant. -/
structure GoTime where
  year : Int
  month : Nat
  day : Nat
  hour : Nat
  minute : Nat
  sec : Nat
  nanos : Nat
  offset : Int
  deriving DecidableEq

/-- Go struct `GeoPoint` with two `float64` coordinates. -/
structure GeoPoint where
  latitude : Rat
  longitude : Rat
  deriving DecidableEq

/-- A generic JSON document, as produced by `encoding/json`. Numbers carry
their exact decimal value as a rational. -/
inductive Json where
  | null
  | bool (b : Bool)
  | num (q : Rat)
  | str (s : String)
  | arr (elems : List Json)
  | obj (fields : List (String × Json))

/-- A `geojson.Geometry` of the external go.geojson library (whose struct
holds a type tag and one typed coordinate slice per geometry kind, plus
`BoundingBox`, `CRS` and `Geometries` fields), represented here by the
type tag together with the JSON form of the coordinate field that the
tag selects (`Json.null` for a nil slice). This represents exactly the
geometries with nil `BoundingBox`, `CRS` and `Geometries`: the library's
`MarshalJSON` and `decodeGeometry` read and write only the type tag and
the tag-selected coordinate field of such values. -/
structure Geometry where
  gtype : String
  coordinates : Json

/-- The dynamic type of an `interface{}` slot holding an attribute value.
Each constructor is one concrete Go type the library stores there:
strings, float64, int, bool, `OrionTime` (stored by `SetAttributeAsDateTime`),
`time.Time` (stored by decode), `*GeoPoint`, `*geojson.Geometry`, generic
decoded JSON (`map[string]interface{}` / `[]interface{}` and values kept
verbatim), and nil. -/
inductive GoValue where
  | str (s : String)
  | float (q : Rat)
  | int (n : Int)
  | bool (b : Bool)
  | orionTime (t : GoTime)
  | time (t : GoTime)
  | geoPoint (p : GeoPoint)
  | geometry (g : Geometry)
  | json (j : Json)
  | null

/-- `AttributeType` is an open string tag in the source. -/
abbrev AttributeType := String

def StringType : AttributeType := "String"
def TextType : AttributeType := "Text"
def NumberType : AttributeType := "Number"
def FloatType : AttributeType := "Float"
def IntegerType : AttributeType := "Integer"
def BooleanType : AttributeType := "Boolean"
def PercentageType : AttributeType := "Percentage"
def DateTimeType : AttributeType := "DateTime"
def GeoPointType : AttributeType := "geo:point"
def GeoJSONType : AttributeType := "geo:json"
def StructuredValueType : AttributeType := "StructuredValue"

def DateCreatedAttributeName : String := "dateCreated"
def DateModifiedAttributeName : String := "dateModified"
def DateExpiresAttributeName : String := "dateExpires"

/-- Go struct `Metadata`: a `(type, value)` pair. -/
structure Metadata where
  type : AttributeType
  value : GoValue

/-- Go struct `Attribute`: embedded `typeValue` plus optional metadata map
(modelled as an association list; `nil` map is the empty list). -/
structure Attribute where
  type : AttributeType
  value : GoValue
  metadata : List (String × Metadata) := []

/-- Go `NewAttribute`. -/
def NewAttribute (typ : AttributeType) (v : GoValue) : Attribute :=
  { type := typ, value := v }

/-- Go struct `Entity`. The `Attributes` Go map is modelled as an
association list with unique keys, updated in place by `setAttr`. -/
structure Entity where
  id : String
  type : String
  attributes : List (String × Attribute)

/-- Map update `e.Attributes[name] = a`: replace the binding if the key is
present, else append. -/
def setAttr : List (String × Attribute) → String → Attribute → List (String × Attribute)
  | [], k, v => [(k, v)]
  | (k0, v0) :: rest, k, v =>
    if k0 = k then (k, v) :: rest else (k0, v0) :: setAttr rest k v

/-- Map read `e.Attributes[name]`. -/
def getAttr : List (String × Attribute) → String → Option Attribute
  | [], _ => none
  | (k0, v0) :: rest, k => if k0 = k then some v0 else getAttr rest k

/-- Go constant `InvalidChars`, the forbidden characters for string
values. -/
def InvalidChars : String := "<>\"\x27=;()"

/-- Go constant `InvalidFieldChars` (plus control characters and
whitespace, checked separately). -/
def InvalidFieldChars : String := "&?/#"

/-- Go variable `ReservedAttrNames`. -/
def ReservedAttrNames : List String :=
  ["id", "type", "geo:distance", "dateCreated", "dateModified"]

/-- Go `unicode.IsControl`: true exactly on the Latin-1 control ranges
U+0000..U+001F and U+007F..U+009F. -/
def goIsControl (r : Char) : Bool :=
  r.toNat < 0x20 || (0x7F ≤ r.toNat && r.toNat ≤ 0x9F)

/-- Go `unicode.IsSpace`: the Latin-1 white space characters plus the
Unicode `White_Space` table. -/
def goIsSpace (r : Char) : Bool :=
  r.toNat = 0x09 || r.toNat = 0x0A || r.toNat = 0x0B || r.toNat = 0x0C ||
  r.toNat = 0x0D || r.toNat = 0x20 || r.toNat = 0x85 || r.toNat = 0xA0 ||
  r.toNat = 0x1680 || (0x2000 ≤ r.toNat && r.toNat ≤ 0x200A) ||
  r.toNat = 0x2028 || r.toNat = 0x2029 || r.toNat = 0x202F ||
  r.toNat = 0x205F || r.toNat = 0x3000

/-- One character is admissible for a field name when it is neither a
control character, nor white space, nor one of `InvalidFieldChars`. -/
def fieldCharOk (r : Char) : Bool :=
  !(goIsControl r || goIsSpace r || InvalidFieldChars.toList.contains r)

/-- The rune loop of Go `IsValidFieldSyntax`, with its early `return
false`. -/
def fieldRunesOk : List Char → Bool
  | [] => true
  | r :: rest => if goIsControl r || goIsSpace r || InvalidFieldChars.toList.contains r
      then false else fieldRunesOk rest

/-- Go `IsValidFieldSyntax`: `len(str)` is the UTF-8 byte length, the loop
ranges over runes. -/
def IsValidFieldSyntaxOk (str : String) : Bool :=
  if str.utf8ByteSize < 1 || 256 < str.utf8ByteSize then false
  else fieldRunesOk str.toList

/-- Go `validateFieldSyntax`. -/
def validateFieldSyn (str : String) : Option GoErr :=
  if !(IsValidFieldSyntaxOk str) then
    some (.msg ("\x27" ++ str ++ "\x27: syntax error for field"))
  else none

/-- Go `IsValidString`: no character of `InvalidChars` occurs. -/
def IsValidString (str : String) : Bool :=
  !(str.toList.any (fun r => InvalidChars.toList.contains r))

/-- Go `SanitizeString`: drop every character of `InvalidChars`. -/
def SanitizeString (str : String) : String :=
  String.mk (str.toList.filter (fun r => !(InvalidChars.toList.contains r)))

/-- ASCII case folding of one character. -/
def asciiFoldCh (c : Char) : Char :=
  if 65 ≤ c.toNat ∧ c.toNat ≤ 90 then Char.ofNat (c.toNat + 32) else c

/-- Go `strings.EqualFold`, as `encoding/json` uses it to match incoming
object keys against struct-field tags. This file only ever folds against
the tags `id` and `type`; every letter of these tags has a Unicode
simple-fold orbit that is exactly its ASCII case pair (the extended
orbits — Kelvin sign with `k`, long s with `s`, Angstrom sign with `a` —
never reach `i`, `d`, `t`, `y`, `p`, `e`, and the Turkish dotted or
dotless i are fold singletons), so ASCII folding agrees with Go's
`EqualFold` on every input compared against these names. -/
def eqFoldName (k target : String) : Bool :=
  k.toList.map asciiFoldCh == target.toList.map asciiFoldCh

/-- Go `IsValidAttributeName`: valid field syntax and not reserved. -/
def IsValidAttributeName (name : String) : Bool :=
  IsValidFieldSyntaxOk name && !(ReservedAttrNames.contains name)

/-- Go `validateAttributeName`. -/
def validateAttributeName (name : String) : Option GoErr :=
  if !(IsValidAttributeName name) then
    some (.msg ("\x27" ++ name ++ "\x27 is not a valid attribute name"))
  else none

/-- Go `NewEntity`: validates id and type eagerly. -/
def NewEntity (id : String) (entityType : String) : Except GoErr Entity :=
  match validateFieldSyn id with
  | some e => .error e
  | none =>
    match validateFieldSyn entityType with
    | some e => .error e
    | none => .ok { id := id, type := entityType, attributes := [] }

/-- Go `Entity.GetAttribute`. -/
def Entity.GetAttribute (e : Entity) (name : String) : GoResult Attribute :=
  match getAttr e.attributes name with
  | some a => .ok a
  | none => .err (.msg ("Entity has no attribute \x27" ++ name ++ "\x27"))

/-- Go `Entity.SetAttribute` (generic). The pair holds the entity after
the call and the returned error. -/
def Entity.SetAttribute (e : Entity) (name : String) (typ : AttributeType)
    (value : GoValue) : Entity × Option GoErr :=
  match validateAttributeName name with
  | some er => (e, some er)
  | none => ({ e with attributes := setAttr e.attributes name (NewAttribute typ value) }, none)

/-- Error returned by the string setters for a value with forbidden
characters. -/
def invalidStringErr (name : String) : GoErr :=
  .msg ("Invalid string value for attribute " ++ name ++ ", contains invalid chars")

/-- Go `Entity.SetAttributeAsString`. -/
def Entity.SetAttributeAsString (e : Entity) (name : String) (value : String) :
    Entity × Option GoErr :=
  match validateAttributeName name with
  | some er => (e, some er)
  | none =>
    if !(IsValidString value) then (e, some (invalidStringErr name))
    else ({ e with attributes := setAttr e.attributes name (NewAttribute StringType (.str value)) }, none)

/-- Go `Entity.SetAttributeAsText`. -/
def Entity.SetAttributeAsText (e : Entity) (name : String) (value : String) :
    Entity × Option GoErr :=
  match validateAttributeName name with
  | some er => (e, some er)
  | none =>
    if !(IsValidString value) then (e, some (invalidStringErr name))
    else ({ e with attributes := setAttr e.attributes name (NewAttribute TextType (.str value)) }, none)

/-- Go `Entity.SetAttributeAsNumber`. -/
def Entity.SetAttributeAsNumber (e : Entity) (name : String) (value : Rat) :
    Entity × Option GoErr :=
  match validateAttributeName name with
  | some er => (e, some er)
  | none => ({ e with attributes := setAttr e.attributes name (NewAttribute NumberType (.float value)) }, none)

/-- Go `Entity.SetAttributeAsInteger`. -/
def Entity.SetAttributeAsInteger (e : Entity) (name : String) (value : Int) :
    Entity × Option GoErr :=
  match validateAttributeName name with
  | some er => (e, some er)
  | none => ({ e with attributes := setAttr e.attributes name (NewAttribute IntegerType (.int value)) }, none)

/-- Go `Entity.SetAttributeAsFloat`. -/
def Entity.SetAttributeAsFloat (e : Entity) (name : String) (value : Rat) :
    Entity × Option GoErr :=
  match validateAttributeName name with
  | some er => (e, some er)
  | none => ({ e with attributes := setAttr e.attributes name (NewAttribute FloatType (.float value)) }, none)

/-- Go `Entity.SetAttributeAsBoolean`. -/
def Entity.SetAttributeAsBoolean (e : Entity) (name : String) (value : Bool) :
    Entity × Option GoErr :=
  match validateAttributeName name with
  | some er => (e, some er)
  | none => ({ e with attributes := setAttr e.attributes name (NewAttribute BooleanType (.bool value)) }, none)

/-- Go `Entity.SetAttributeAsDateTime`: stores the value wrapped in
`OrionTime`. -/
def Entity.SetAttributeAsDateTime (e : Entity) (name : String) (value : GoTime) :
    Entity × Option GoErr :=
  match validateAttributeName name with
  | some er => (e, some er)
  | none => ({ e with attributes := setAttr e.attributes name (NewAttribute DateTimeType (.orionTime value)) }, none)

/-- Go `Entity.SetDateExpires`: writes the builtin name directly, with no
validation and no error return. -/
def Entity.SetDateExpires (e : Entity) (value : GoTime) : Entity :=
  { e with attributes := setAttr e.attributes DateExpiresAttributeName (NewAttribute DateTimeType (.orionTime value)) }

/-- Go `Entity.SetAttributeAsGeoPoint`. -/
def Entity.SetAttributeAsGeoPoint (e : Entity) (name : String) (value : GeoPoint) :
    Entity × Option GoErr :=
  match validateAttributeName name with
  | some er => (e, some er)
  | none => ({ e with attributes := setAttr e.attributes name (NewAttribute GeoPointType (.geoPoint value)) }, none)

/-- Go `Entity.SetAttributeAsGeoJSON`. -/
def Entity.SetAttributeAsGeoJSON (e : Entity) (name : String) (value : Geometry) :
    Entity × Option GoErr :=
  match validateAttributeName name with
  | some er => (e, some er)
  | none => ({ e with attributes := setAttr e.attributes name (NewAttribute GeoJSONType (.geometry value)) }, none)

/-- Go `Entity.SetAttributeAsStructuredValue`. -/
def Entity.SetAttributeAsStructuredValue (e : Entity) (name : String) (value : GoValue) :
    Entity × Option GoErr :=
  match validateAttributeName name with
  | some er => (e, some er)
  | none => ({ e with attributes := setAttr e.attributes name (NewAttribute StructuredValueType value) }, none)

/-- Go conversion `int(f)` from float64, as this library runs it (amd64):
truncation toward zero; a value outside the int64 range yields
`math.MinInt64`. -/
def goIntOfFloat (q : Rat) : Int :=
  let t : Int := if 0 ≤ q then q.floor else q.ceil
  if t < -(2 ^ 63) || 2 ^ 63 - 1 < t then -(2 ^ 63) else t

/-- Go `Attribute.GetAsString`. -/
def Attribute.GetAsString (a : Attribute) : GoResult String :=
  if a.type ≠ StringType ∧ a.type ≠ TextType then
    .err (.msg ("Attribute is nor String or Text, but " ++ a.type))
  else
    match a.value with
    | .str s => .ok s
    | _ => .err .invalidCast

/-- Go `Attribute.GetAsInteger`. The final branch is the unchecked type
assertion `a.Value.(int)`, which panics when the value is neither a
float64 nor an int. -/
def Attribute.GetAsInteger (a : Attribute) : GoResult Int :=
  if a.type ≠ IntegerType then
    .err (.msg ("Attribute is not Integer, but " ++ a.type))
  else
    match a.value with
    | .float f =>
      if 0 < f ∧ goIntOfFloat f < 0 then .err (.msg "integer out of range")
      else .ok (goIntOfFloat f)
    | .int n => .ok n
    | _ => .crash "interface conversion: interface is not int"

/-- Go `Attribute.GetAsFloat`. -/
def Attribute.GetAsFloat (a : Attribute) : GoResult Rat :=
  if a.type ≠ FloatType ∧ a.type ≠ NumberType then
    .err (.msg ("Attribute is nor Float or Number, but " ++ a.type))
  else
    match a.value with
    | .float f => .ok f
    | _ => .err .invalidCast

/-- Go `Attribute.GetAsBoolean`. -/
def Attribute.GetAsBoolean (a : Attribute) : GoResult Bool :=
  if a.type ≠ BooleanType then
    .err (.msg ("Attribute is not Boolean, but " ++ a.type))
  else
    match a.value with
    | .bool b => .ok b
    | _ => .err .invalidCast

/-- Go `Attribute.GetAsDateTime`: accepts a `time.Time` or an `OrionTime`
value. -/
def Attribute.GetAsDateTime (a : Attribute) : GoResult GoTime :=
  if a.type ≠ DateTimeType then
    .err (.msg ("Attribute is not DateTime, but " ++ a.type))
  else
    match a.value with
    | .time t => .ok t
    | .orionTime t => .ok t
    | _ => .err (.msg "Attribute with date time type does not contain time value")

/-- Go `Attribute.GetAsGeoPoint`. -/
def Attribute.GetAsGeoPoint (a : Attribute) : GoResult GeoPoint :=
  if a.type ≠ GeoPointType then
    .err (.msg ("Attribute is not GeoPoint, but \x27" ++ a.type ++ "\x27"))
  else
    match a.value with
    | .geoPoint p => .ok p
    | _ => .err (.msg "Attribute with geopoint type does not contain geopoint value")

/-- Go `Attribute.GetAsGeoJSON`. -/
def Attribute.GetAsGeoJSON (a : Attribute) : GoResult Geometry :=
  if a.type ≠ GeoJSONType then
    .err (.msg ("Attribute is not geo:json, but \x27" ++ a.type ++ "\x27"))
  else
    match a.value with
    | .geometry g => .ok g
    | _ => .err (.msg "Attribute with geo:json type does not contain geo:json value")

/-- Go `Attribute.DecodeStructuredValue`. The `mapstructure.Decode` copy of
the stored value into a matching caller-supplied target is modelled as
returning the stored value. -/
def Attribute.DecodeStructuredValue (a : Attribute) : GoResult GoValue :=
  if a.type ≠ StructuredValueType then
    .err (.msg ("Attribute is not " ++ StructuredValueType ++ ", but \x27" ++ a.type ++ "\x27"))
  else .ok a.value

/-- Go `Entity.GetAttributeAsString`. -/
def Entity.GetAttributeAsString (e : Entity) (name : String) : GoResult String :=
  match e.GetAttribute name with
  | .ok a => a.GetAsString
  | .err er => .err er
  | .crash s => .crash s

/-- Go `Entity.GetAttributeAsInteger`. -/
def Entity.GetAttributeAsInteger (e : Entity) (name : String) : GoResult Int :=
  match e.GetAttribute name with
  | .ok a => a.GetAsInteger
  | .err er => .err er
  | .crash s => .crash s

/-- Go `Entity.GetAttributeAsFloat`. -/
def Entity.GetAttributeAsFloat (e : Entity) (name : String) : GoResult Rat :=
  match e.GetAttribute name with
  | .ok a => a.GetAsFloat
  | .err er => .err er
  | .crash s => .crash s

/-- Go `Entity.GetAttributeAsBoolean`. -/
def Entity.GetAttributeAsBoolean (e : Entity) (name : String) : GoResult Bool :=
  match e.GetAttribute name with
  | .ok a => a.GetAsBoolean
  | .err er => .err er
  | .crash s => .crash s

/-- Go `Entity.GetAttributeAsDateTime`. -/
def Entity.GetAttributeAsDateTime (e : Entity) (name : String) : GoResult GoTime :=
  match e.GetAttribute name with
  | .ok a => a.GetAsDateTime
  | .err er => .err er
  | .crash s => .crash s

/-- Go `Entity.GetAttributeAsGeoPoint`. -/
def Entity.GetAttributeAsGeoPoint (e : Entity) (name : String) : GoResult GeoPoint :=
  match e.GetAttribute name with
  | .ok a => a.GetAsGeoPoint
  | .err er => .err er
  | .crash s => .crash s

/-- Go `Entity.GetAttributeAsGeoJSON`. -/
def Entity.GetAttributeAsGeoJSON (e : Entity) (name : String) : GoResult Geometry :=
  match e.GetAttribute name with
  | .ok a => a.GetAsGeoJSON
  | .err er => .err er
  | .crash s => .crash s

/-- Go `Entity.GetDateExpires`. -/
def Entity.GetDateExpires (e : Entity) : GoResult GoTime :=
  e.GetAttributeAsDateTime DateExpiresAttributeName

/-- Go `Entity.GetDateCreated`. -/
def Entity.GetDateCreated (e : Entity) : GoResult GoTime :=
  e.GetAttributeAsDateTime DateCreatedAttributeName

/-- Go `Entity.GetDateModified`. -/
def Entity.GetDateModified (e : Entity) : GoResult GoTime :=
  e.GetAttributeAsDateTime DateModifiedAttributeName

/-- Fuel-based binary logarithm on `Nat` (value of `Nat.log2`, defined so
that the kernel reduces it). -/
def natLog2Aux : Nat → Nat → Nat
  | 0, _ => 0
  | fuel + 1, n => if 2 ≤ n then natLog2Aux fuel (n / 2) + 1 else 0

def natLog2 (n : Nat) : Nat := natLog2Aux n n

/-- Floor of a rational as an integer (kernel-reducible). -/
def ratFloorZ (q : Rat) : Int := Int.fdiv q.num q.den

/-- `q * 2 ^ s`, built with `mkRat` and integer arithmetic so that the
kernel evaluates it. -/
def ratScalePow2 (q : Rat) (s : Int) : Rat :=
  if 0 ≤ s then mkRat (q.num * (2 ^ s.toNat : Nat)) q.den
  else mkRat q.num (q.den * 2 ^ (-s).toNat)

/-- Round a rational to the nearest integer, ties to even (the IEEE 754
default rounding used by Go for float64 conversions). The fractional part
`a / den` is compared with one half by integer arithmetic. -/
def roundHalfEven (q : Rat) : Int :=
  let f := Int.fdiv q.num q.den
  let a := q.num - f * q.den
  if 2 * a < (q.den : Int) then f
  else if (q.den : Int) < 2 * a then f + 1
  else if f % 2 = 0 then f else f + 1

/-- Whether `2 ^ e ≤ |q|`, by integer arithmetic. -/
def pow2AbsLe (e : Int) (q : Rat) : Bool :=
  if 0 ≤ e then q.den * 2 ^ e.toNat ≤ q.num.natAbs
  else q.den ≤ q.num.natAbs * 2 ^ (-e).toNat

/-- For `q ≠ 0`, the unique `e` with `2 ^ e ≤ |q| < 2 ^ (e + 1)`. -/
def qlog2 (q : Rat) : Int :=
  let l : Int := (natLog2 q.num.natAbs : Int) - (natLog2 q.den : Int)
  if pow2AbsLe (l + 1) q then l + 1 else if pow2AbsLe l q then l else l - 1

/-- Exponent of the distance between consecutive float64 values around
`q`: `e - 52` in the normal range, `-1074` in the subnormal range. -/
def f64scale (q : Rat) : Int := max (qlog2 q - 52) (-1074)

/-- IEEE 754 binary64 rounding (round to nearest, ties to even), as
performed by Go when a decimal number is converted to a `float64`. The
result is the exact rational value of the nearest float64 (overflow to
infinity is handled by the callers, via `f64overflow`). -/
def f64round (q : Rat) : Rat :=
  if q = 0 then 0
  else ratScalePow2 ((roundHalfEven (ratScalePow2 q (-(f64scale q))) : Int) : Rat) (f64scale q)

/-- Whether a rounded value falls outside the finite float64 range
(`|q| ≥ 2 ^ 1024`), i.e. the conversion overflows to infinity. -/
def f64overflow (q : Rat) : Bool := pow2AbsLe 1024 q

def digitChar (d : Nat) : Char :=
  match d with
  | 0 => '0' | 1 => '1' | 2 => '2' | 3 => '3' | 4 => '4'
  | 5 => '5' | 6 => '6' | 7 => '7' | 8 => '8' | _ => '9'

def digitVal (c : Char) : Nat := c.toNat - 48

def isDigitCh (c : Char) : Bool := 48 ≤ c.toNat && c.toNat ≤ 57

/-- Decimal digits of `n`, most significant first (fuel-based so the
kernel reduces it; `n` itself is always enough fuel). -/
def natDecAux : Nat → Nat → List Char
  | 0, _ => []
  | fuel + 1, n => if n < 10 then [digitChar n] else natDecAux fuel (n / 10) ++ [digitChar (n % 10)]

def natDec (n : Nat) : List Char := natDecAux (n + 1) n

/-- Value of a run of decimal digit characters. -/
def digitsToNat : List Char → Nat → Nat
  | [], acc => acc
  | c :: rest, acc => digitsToNat rest (acc * 10 + digitVal c)

/-- Fixed-point decimal rendering of `n / 10 ^ k` with exactly `k`
fractional digits. -/
def printFixedInt (n : Int) (k : Nat) : List Char :=
  let sign : List Char := if n < 0 then ['-'] else []
  let na := n.natAbs
  if k = 0 then sign ++ natDec na
  else
    let ip := na / 10 ^ k
    let fp := na % 10 ^ k
    let fpd := natDec fp
    sign ++ natDec ip ++ ['.'] ++ (List.replicate (k - fpd.length) '0' ++ fpd)

/-- Exact rational value `±(digits of ip . digits of fp) * 10 ^ eTot`
where `eTot` already accounts for the fractional digits. -/
def mkDecValue (neg : Bool) (ip fp : List Char) (eTot : Int) : Rat :=
  let base : Nat := digitsToNat ip 0 * 10 ^ fp.length + digitsToNat fp 0
  let sbase : Int := if neg then -(base : Int) else (base : Int)
  if 0 ≤ eTot then mkRat (sbase * (10 ^ eTot.toNat : Nat)) 1
  else mkRat sbase (10 ^ (-eTot).toNat)

/-- Exact value of a decimal floating-point literal, per the syntax
accepted by Go `strconv.ParseFloat` (sign, digits with optional point,
optional decimal exponent; the hex, `inf` and `NaN` forms, which never
arise in this codec, are not modelled). `none` is a syntax error. -/
def parseDecExact (l : List Char) : Option Rat :=
  let sgn : Bool × List Char :=
    match l with
    | c :: r => if c = '+' then (false, r) else if c = '-' then (true, r) else (false, l)
    | [] => (false, l)
  let ip := sgn.2.takeWhile isDigitCh
  let l2 := sgn.2.dropWhile isDigitCh
  let fpl2 : List Char × List Char :=
    match l2 with
    | '.' :: r => (r.takeWhile isDigitCh, r.dropWhile isDigitCh)
    | _ => ([], l2)
  let fp := fpl2.1
  let l3 := fpl2.2
  if ip.isEmpty && fp.isEmpty then none
  else
    let neg := sgn.1
    match l3 with
    | [] => some (mkDecValue neg ip fp (-(fp.length : Int)))
    | 'e' :: r =>
      let esgn : Bool × List Char :=
        match r with
        | '+' :: r2 => (false, r2)
        | '-' :: r2 => (true, r2)
        | _ => (false, r)
      let ed := esgn.2.takeWhile isDigitCh
      let rest := esgn.2.dropWhile isDigitCh
      if ed.isEmpty ∨ !rest.isEmpty then none
      else
        let ex : Int := if esgn.1 then -(digitsToNat ed 0 : Int) else (digitsToNat ed 0 : Int)
        some (mkDecValue neg ip fp (ex - fp.length))
    | 'E' :: r =>
      let esgn : Bool × List Char :=
        match r with
        | '+' :: r2 => (false, r2)
        | '-' :: r2 => (true, r2)
        | _ => (false, r)
      let ed := esgn.2.takeWhile isDigitCh
      let rest := esgn.2.dropWhile isDigitCh
      if ed.isEmpty ∨ !rest.isEmpty then none
      else
        let ex : Int := if esgn.1 then -(digitsToNat ed 0 : Int) else (digitsToNat ed 0 : Int)
        some (mkDecValue neg ip fp (ex - fp.length))
    | _ => none

/-- Go `strconv.ParseFloat(s, 64)`: decimal parse followed by float64
rounding; a syntax error or a value overflowing the finite range is an
error (`none`). -/
def parseGoFloat (l : List Char) : Option Rat :=
  match parseDecExact l with
  | none => none
  | some q => let r := f64round q; if f64overflow r then none else some r

/-- Numerator of `q` rounded to the nearest multiple of `10 ^ (-k)`, ties
to even. -/
def scale10Round (q : Rat) (k : Nat) : Int :=
  roundHalfEven (mkRat (q.num * (10 ^ k : Nat)) q.den)

/-- Round `q` to the nearest decimal with `k` fractional digits, ties to
even. -/
def decRound (q : Rat) (k : Nat) : Rat := mkRat (scale10Round q k) (10 ^ k)

/-- Least `k` such that the decimal rounding of `q` to `k` fractional
digits parses back (as a float64) to exactly `q`. -/
def shortestFracAux (q : Rat) : Nat → Nat → Option Nat
  | 0, _ => none
  | fuel + 1, k => if f64round (decRound q k) = q then some k else shortestFracAux q fuel (k + 1)

/-- Go `fmt.Sprintf("%v", f)` on a float64, modelled as the shortest
fixed-point decimal that round-trips. Fidelity notes: Go prints the
fewest significant digits and switches to exponent notation outside
`[1e-4, 1e21)`; both render the same mathematical value, and
`strconv.ParseFloat` recovers the same float64 from either spelling, so
the model agrees with Go wherever the codec consumes the text (and
agrees textually in the fixed-notation range exercised here). -/
def formatGoFloat (q : Rat) : List Char :=
  match shortestFracAux q 1101 0 with
  | some k => printFixedInt (scale10Round q k) k
  | none => printFixedInt (ratFloorZ q) 0

/-- Go `strings.TrimSpace` on runes. -/
def trimSpaceL (l : List Char) : List Char :=
  ((l.dropWhile goIsSpace).reverse.dropWhile goIsSpace).reverse

/-- Go `strings.Split(s, ",")`. -/
def splitComma : List Char → List (List Char)
  | [] => [[]]
  | c :: rest =>
    if c = ',' then [] :: splitComma rest
    else
      match splitComma rest with
      | h :: t => (c :: h) :: t
      | [] => [[c]]

def isLeapYear (y : Int) : Bool := y % 4 = 0 && (y % 100 ≠ 0 || y % 400 = 0)

def daysInMonth (y : Int) (m : Nat) : Nat :=
  match m with
  | 1 => 31
  | 2 => if isLeapYear y then 29 else 28
  | 3 => 31
  | 4 => 30
  | 5 => 31
  | 6 => 30
  | 7 => 31
  | 8 => 31
  | 9 => 30
  | 10 => 31
  | 11 => 30
  | 12 => 31
  | _ => 0

def pad2 (n : Nat) : List Char :=
  if n < 10 then ['0', digitChar n] else natDec n

def pad4 (n : Nat) : List Char :=
  List.replicate (4 - (natDec n).length) '0' ++ natDec n

def stripZeros (l : List Char) : List Char :=
  (l.reverse.dropWhile (fun c => c = '0')).reverse

/-- Fractional-second text for the Go layout `.999`: milliseconds
(nanoseconds truncated), trailing zeros removed, nothing when zero. -/
def fracMilli (nanos : Nat) : List Char :=
  let ms := nanos / 1000000
  if ms = 0 then []
  else '.' :: stripZeros (List.replicate (3 - (natDec ms).length) '0' ++ natDec ms)

/-- Fractional-second text for the Go layout `.999999999` (RFC3339Nano):
nanoseconds, trailing zeros removed, nothing when zero. -/
def fracNano (nanos : Nat) : List Char :=
  if nanos = 0 then []
  else '.' :: stripZeros (List.replicate (9 - (natDec nanos).length) '0' ++ natDec nanos)

/-- Zone suffix for the Go layout `Z07:00`: `Z` when the offset is zero,
else sign, hours and minutes (offset seconds truncated, as Go divides the
offset by 60 with truncating integer division). -/
def zoneChars (offset : Int) : List Char :=
  if offset = 0 then ['Z']
  else
    let zone := Int.tdiv offset 60
    let sgn : Char := if zone < 0 then '-' else '+'
    let z : Nat := zone.natAbs
    [sgn] ++ pad2 (z / 60) ++ [':'] ++ pad2 (z % 60)

/-- The text of `t` under the Go layout `2006-01-02T15:04:05.999Z07:00`
used by `OrionTime.MarshalJSON`. -/
def formatOrionTime (t : GoTime) : List Char :=
  pad4 t.year.toNat ++ ['-'] ++ pad2 t.month ++ ['-'] ++ pad2 t.day ++ ['T'] ++
  pad2 t.hour ++ [':'] ++ pad2 t.minute ++ [':'] ++ pad2 t.sec ++
  fracMilli t.nanos ++ zoneChars t.offset

/-- Go `OrionTime.MarshalJSON`: rejects years outside [0, 9999], then
formats with millisecond precision (the error text elides the `%d`
year). -/
def marshalOrionTime (t : GoTime) : Except GoErr (List Char) :=
  if t.year < 0 ∨ 10000 ≤ t.year then
    .error (.msg "OrionTime.MarshalJSON: year outside of range [0,9999]")
  else .ok (formatOrionTime t)

/-- Go `time.Time.MarshalJSON` (RFC3339 with nanoseconds), used when a
decoded entity is marshaled again. -/
def marshalGoTime (t : GoTime) : Except GoErr (List Char) :=
  if t.year < 0 ∨ 10000 ≤ t.year then
    .error (.msg "Time.MarshalJSON: year outside of range [0,9999]")
  else
    .ok (pad4 t.year.toNat ++ ['-'] ++ pad2 t.month ++ ['-'] ++ pad2 t.day ++ ['T'] ++
      pad2 t.hour ++ [':'] ++ pad2 t.minute ++ [':'] ++ pad2 t.sec ++
      fracNano t.nanos ++ zoneChars t.offset)

/-- Read exactly `n` decimal digits. -/
def readNDigitsAux : Nat → Nat → List Char → Option (Nat × List Char)
  | 0, acc, l => some (acc, l)
  | n + 1, acc, c :: l => if isDigitCh c then readNDigitsAux n (acc * 10 + digitVal c) l else none
  | _ + 1, _, [] => none

def expectCh (c : Char) : List Char → Option (List Char)
  | c0 :: l => if c0 = c then some l else none
  | [] => none

/-- Optional fractional seconds: a point followed by 1 to 9 digits
(Go errors beyond 9); yields nanoseconds. -/
def parseFrac : List Char → Option (Nat × List Char)
  | '.' :: r =>
    let ds := r.takeWhile isDigitCh
    let rest := r.dropWhile isDigitCh
    if ds.isEmpty then none
    else if 9 < ds.length then none
    else some (digitsToNat ds 0 * 10 ^ (9 - ds.length), rest)
  | l => some (0, l)

def parseZoneHM (sgn : Int) (l : List Char) : Option (Int × List Char) := do
  let (hh, l) ← readNDigitsAux 2 0 l
  let l ← expectCh ':' l
  let (mm, l) ← readNDigitsAux 2 0 l
  some (sgn * ((hh : Int) * 3600 + (mm : Int) * 60), l)

def parseZone : List Char → Option (Int × List Char)
  | 'Z' :: r => some (0, r)
  | '+' :: r => parseZoneHM 1 r
  | '-' :: r => parseZoneHM (-1) r
  | _ => none

/-- The date half `2006-01-02` of the RFC3339 layout. -/
def parseYMD (l : List Char) : Option (Nat × Nat × Nat × List Char) := do
  let (y, l) ← readNDigitsAux 4 0 l
  let l ← expectCh '-' l
  let (mo, l) ← readNDigitsAux 2 0 l
  let l ← expectCh '-' l
  let (d, l) ← readNDigitsAux 2 0 l
  some (y, mo, d, l)

/-- The clock half `15:04:05` of the RFC3339 layout. -/
def parseHMS (l : List Char) : Option (Nat × Nat × Nat × List Char) := do
  let (h, l) ← readNDigitsAux 2 0 l
  let l ← expectCh ':' l
  let (mi, l) ← readNDigitsAux 2 0 l
  let l ← expectCh ':' l
  let (sec, l) ← readNDigitsAux 2 0 l
  some (h, mi, sec, l)

/-- Field range validation performed by Go `time.Parse` (month, day in
month including leap years, hour, minute, second). -/
def validDateTimeFields (y : Int) (mo d h mi sec : Nat) : Bool :=
  1 ≤ mo && mo ≤ 12 && 1 ≤ d && d ≤ daysInMonth y mo && h ≤ 23 && mi ≤ 59 && sec ≤ 59

/-- Go `time.Parse(time.RFC3339, s)`: strict layout
`2006-01-02T15:04:05(.fraction)?(Z|±hh:mm)` with field validation,
consuming the whole input. -/
def parseRFC3339 (s : String) : Option GoTime := do
  let (y, mo, d, l) ← parseYMD s.toList
  let l ← expectCh 'T' l
  let (h, mi, sec, l) ← parseHMS l
  let (ns, l) ← parseFrac l
  let (off, l) ← parseZone l
  if !l.isEmpty then none
  else if validDateTimeFields (y : Int) mo d h mi sec then
    some ⟨(y : Int), mo, d, h, mi, sec, ns, off⟩
  else none

/-- The rationals that are values of a Go `float64`: zero, or a dyadic
rational with a 53-bit significand, exponent at least -1074, within the
finite range. -/
def IsF64 (q : Rat) : Prop :=
  q = 0 ∨ ∃ m e : Int, q = (m : Rat) * (2 : Rat) ^ e ∧ m.natAbs < 2 ^ 53 ∧
    -1074 ≤ e ∧ |q| < (2 : Rat) ^ (1024 : Int)

/-- In decoded generic form: what `json.Unmarshal` into `interface{}`
produces for a document (when it does not overflow). -/
def decodedForm (j : Json) : GoValue :=
  match j with
  | .str s => .str s
  | .bool b => .bool b
  | .null => .null
  | .num q => .float (f64round q)
  | .arr xs => .json (.arr xs)
  | .obj fs => .json (.obj fs)

/-- No top-level number overflow: generic decode of `j` succeeds. -/
def TopNumOk (j : Json) : Prop :=
  match j with
  | .num q => f64overflow (f64round q) = false
  | _ => True

/-- The `time.Time` values whose OrionTime encoding round-trips exactly:
valid calendar fields, a year RFC 3339 can carry, millisecond
granularity, and a real-world zone offset (whole minutes, below a day).
-/
def TimeGood (t : GoTime) : Prop :=
  0 ≤ t.year ∧ t.year ≤ 9999 ∧
  1 ≤ t.month ∧ t.month ≤ 12 ∧
  1 ≤ t.day ∧ t.day ≤ daysInMonth t.year t.month ∧
  t.hour ≤ 23 ∧ t.minute ≤ 59 ∧ t.sec ≤ 59 ∧
  t.nanos < 1000000000 ∧ t.nanos % 1000000 = 0 ∧
  t.offset % 60 = 0 ∧ t.offset.natAbs < 86400

mutual
/-- `json.Unmarshal` of a document into `map[string]interface{}` or
`[]interface{}`, as go.geojson's `Geometry.UnmarshalJSON` begins with:
every number anywhere in the document becomes the nearest float64 and an
overflowing number is an error; the structure is otherwise kept. -/
def jsonDeepF64 : Json → Except GoErr Json
  | .num q =>
    let r := f64round q
    if f64overflow r then .error (.msg "json: number out of range") else .ok (.num r)
  | .arr xs => do
    let ys ← jsonDeepF64List xs
    .ok (.arr ys)
  | .obj fs => do
    let gs ← jsonDeepF64Fields fs
    .ok (.obj gs)
  | .str s => .ok (.str s)
  | .bool b => .ok (.bool b)
  | .null => .ok .null

def jsonDeepF64List : List Json → Except GoErr (List Json)
  | [] => .ok []
  | x :: xs => do
    let y ← jsonDeepF64 x
    let ys ← jsonDeepF64List xs
    .ok (y :: ys)

def jsonDeepF64Fields : List (String × Json) → Except GoErr (List (String × Json))
  | [] => .ok []
  | (k, v) :: fs => do
    let w ← jsonDeepF64 v
    let ws ← jsonDeepF64Fields fs
    .ok ((k, w) :: ws)
end

mutual
/-- Every number of the document is already an exact float64 value (so
the generic decode above is the identity on it). -/
def JsonF64Vals : Json → Prop
  | .num q => IsF64 q
  | .arr xs => JsonF64ValsList xs
  | .obj fs => JsonF64ValsFields fs
  | .str _ => True
  | .bool _ => True
  | .null => True

def JsonF64ValsList : List Json → Prop
  | [] => True
  | x :: xs => JsonF64Vals x ∧ JsonF64ValsList xs

def JsonF64ValsFields : List (String × Json) → Prop
  | [] => True
  | kv :: fs => JsonF64Vals kv.2 ∧ JsonF64ValsFields fs
end

/-- go.geojson `decodePosition` applied to generically decoded data: the
data must be an array whose members are all numbers (float64 after the
generic decode). -/
def geoPositionOk : Json → Bool
  | .arr xs => xs.all fun x => match x with | .num _ => true | _ => false
  | _ => false

/-- go.geojson `decodePositionSet`: an array of positions. -/
def geoPositionSetOk : Json → Bool
  | .arr xs => xs.all geoPositionOk
  | _ => false

/-- go.geojson `decodePathSet`: an array of position sets. -/
def geoPathSetOk : Json → Bool
  | .arr xs => xs.all geoPositionSetOk
  | _ => false

/-- go.geojson `decodePolygonSet`: an array of path sets. -/
def geoPolygonSetOk : Json → Bool
  | .arr xs => xs.all geoPathSetOk
  | _ => false

/-- The six geometry type tags whose `MarshalJSON` writes a
`coordinates` field (and whose decode reads one). -/
def GeoCoordTag (t : String) : Bool :=
  t == "Point" || t == "MultiPoint" || t == "LineString" || t == "MultiLineString" ||
  t == "Polygon" || t == "MultiPolygon"

/-- The coordinate validator go.geojson's `decodeGeometry` switch runs
for each of the six coordinate-carrying type tags. -/
def geoCoordsOk (t : String) (c : Json) : Bool :=
  if t = "Point" then geoPositionOk c
  else if t = "MultiPoint" ∨ t = "LineString" then geoPositionSetOk c
  else if t = "MultiLineString" ∨ t = "Polygon" then geoPathSetOk c
  else if t = "MultiPolygon" then geoPolygonSetOk c
  else false

/-- The geometries the go.geojson codec round-trips (and that the
`Geometry` model of this file represents exactly): either one of the six
coordinate-carrying types with coordinates that pass its validator and
hold only exact float64 numbers, or an unrecognized type tag with no
coordinates (go.geojson decodes such a document to a geometry with only
the type set, which marshals back to the same document).
`GeometryCollection` is excluded: go.geojson cannot even re-decode the
document of an empty collection (`decodeGeometries` rejects a missing
`geometries` key). -/
def GeometryGood (g : Geometry) : Prop :=
  (GeoCoordTag g.gtype = true ∧ geoCoordsOk g.gtype g.coordinates = true ∧
    JsonF64Vals g.coordinates) ∨
  (GeoCoordTag g.gtype = false ∧ g.gtype ≠ "GeometryCollection" ∧ g.coordinates = .null)

/-- One typed setter call, as listed by the round-trip claim. -/
inductive SetterOp where
  | str (name : String) (v : String)
  | text (name : String) (v : String)
  | number (name : String) (v : Rat)
  | int (name : String) (v : Int)
  | float (name : String) (v : Rat)
  | bool (name : String) (v : Bool)
  | dateTime (name : String) (v : GoTime)
  | geoPoint (name : String) (v : GeoPoint)
  | geoJSON (name : String) (v : Geometry)
  | structured (name : String) (v : GoValue)

def applyOp (e : Entity) : SetterOp → Entity × Option GoErr
  | .str name v => e.SetAttributeAsString name v
  | .text name v => e.SetAttributeAsText name v
  | .number name v => e.SetAttributeAsNumber name v
  | .int name v => e.SetAttributeAsInteger name v
  | .float name v => e.SetAttributeAsFloat name v
  | .bool name v => e.SetAttributeAsBoolean name v
  | .dateTime name v => e.SetAttributeAsDateTime name v
  | .geoPoint name v => e.SetAttributeAsGeoPoint name v
  | .geoJSON name v => e.SetAttributeAsGeoJSON name v
  | .structured name v => e.SetAttributeAsStructuredValue name v

/-- Apply a sequence of setter calls; the flag records whether every call
succeeded. -/
def applyOps : Entity → List SetterOp → Entity × Bool
  | e, [] => (e, true)
  | e, op :: rest =>
    let r := applyOp e op
    let r2 := applyOps r.1 rest
    (r2.1, r2.2 && r.2.isNone)

/-- The side conditions under which one setter value survives the codec
exactly: numeric values and geo coordinates must be finite float64
values (`IsF64` is the rational value set of finite float64; NaN and the
infinities are not rationals, and Go's JSON encoder rejects them with an
unsupported-value error before any of this codec runs), integers must be
exact in float64 (magnitude at most `2 ^ 53`), times must satisfy
`TimeGood`, geometries must satisfy `GeometryGood`, and a structured
value must be generic document data whose top-level number does not
overflow. -/
def OpGood : SetterOp → Prop
  | .str _ _ => True
  | .text _ _ => True
  | .number _ v => IsF64 v
  | .int _ v => v.natAbs ≤ 2 ^ 53
  | .float _ v => IsF64 v
  | .bool _ _ => True
  | .dateTime _ v => TimeGood v
  | .geoPoint _ v => IsF64 v.latitude ∧ IsF64 v.longitude
  | .geoJSON _ v => GeometryGood v
  | .structured _ v => ∃ j, v = .json j ∧ TopNumOk j

/-- The attribute name a setter call writes to. -/
def SetterOp.opName : SetterOp → String
  | .str n _ => n
  | .text n _ => n
  | .number n _ => n
  | .int n _ => n
  | .float n _ => n
  | .bool n _ => n
  | .dateTime n _ => n
  | .geoPoint n _ => n
  | .geoJSON n _ => n
  | .structured n _ => n

/-- Invariant satisfied by every attribute a successful good setter call
writes. -/
def ValueGood (ty : AttributeType) (v : GoValue) : Prop :=
  (ty = StringType ∧ ∃ s, v = .str s) ∨
  (ty = TextType ∧ ∃ s, v = .str s) ∨
  (ty = NumberType ∧ ∃ q, v = .float q ∧ IsF64 q) ∨
  (ty = FloatType ∧ ∃ q, v = .float q ∧ IsF64 q) ∨
  (ty = IntegerType ∧ ∃ n : Int, v = .int n ∧ n.natAbs ≤ 2 ^ 53) ∨
  (ty = BooleanType ∧ ∃ b, v = .bool b) ∨
  (ty = DateTimeType ∧ ∃ t, v = .orionTime t ∧ TimeGood t) ∨
  (ty = GeoPointType ∧ ∃ p : GeoPoint, v = .geoPoint p ∧ IsF64 p.latitude ∧ IsF64 p.longitude) ∨
  (ty = GeoJSONType ∧ ∃ g, v = .geometry g ∧ GeometryGood g) ∨
  (ty = StructuredValueType ∧ ∃ j, v = .json j ∧ TopNumOk j)

def GoodAttr (name : String) (a : Attribute) : Prop :=
  IsValidAttributeName name = true ∧ a.metadata = [] ∧ ValueGood a.type a.value

/-- What "the typed getter matching the setter returns the original
value" means per stored value shape. -/
def AttrValueRoundtrip (a2 : Attribute) : GoValue → Prop
  | .str s => a2.GetAsString = .ok s
  | .float q => a2.GetAsFloat = .ok q
  | .int n => a2.GetAsInteger = .ok n
  | .bool b => a2.GetAsBoolean = .ok b
  | .orionTime t => a2.GetAsDateTime = .ok t
  | .time t => a2.GetAsDateTime = .ok t
  | .geoPoint p => a2.GetAsGeoPoint = .ok p
  | .geometry g => a2.GetAsGeoJSON = .ok g
  | .json j => a2.DecodeStructuredValue = .ok (decodedForm j)
  | .null => True

/-- A sample entity used to instantiate universally quantified theorems. -/
def sampleEntity : Entity := { id := "Room1", type := "Room", attributes := [] }

/-- Lookup in a JSON object; `encoding/json` keeps the last duplicate of a
key, so the last binding wins. -/
def objLookup : List (String × Json) → String → Option Json
  | [], _ => none
  | (k0, v) :: rest, k =>
    match objLookup rest k with
    | some r => some r
    | none => if k0 = k then some v else none

/-- Map update `data[k] = v` on a JSON object under construction. -/
def setField : List (String × Json) → String → Json → List (String × Json)
  | [], k, v => [(k, v)]
  | (k0, v0) :: rest, k, v =>
    if k0 = k then (k, v) :: rest else (k0, v0) :: setField rest k v

/-- Go `GeoPoint.MarshalJSON`: `fmt.Sprintf("%v, %v", lat, lon)` inside
quotes, i.e. a JSON string. -/
def GeoPoint.marshalChars (p : GeoPoint) : List Char :=
  formatGoFloat p.latitude ++ (", ".toList) ++ formatGoFloat p.longitude

/-- Go `GeoPoint.UnmarshalJSON` applied to the raw bytes of the value
string: split on every comma, trim spaces, parse both halves as
float64. -/
def geoPointUnmarshal (s : String) : Except GoErr GeoPoint :=
  match splitComma s.toList with
  | [t1, t2] =>
    match parseGoFloat (trimSpaceL t1) with
    | none => .error (.msg "Invalid latitude value")
    | some lat =>
      match parseGoFloat (trimSpaceL t2) with
      | none => .error (.msg "Invalid longitude value")
      | some lon => .ok ⟨lat, lon⟩
  | _ => .error (.msg "Invalid geo:point value")

/-- The external go.geojson `Geometry.UnmarshalJSON`: a generic
`map[string]interface{}` decode of the document (rounding every number
to float64, failing on overflow and on non-objects), then
`decodeGeometry`: the `type` property must exist and be a string; for
the six coordinate-carrying tags the corresponding coordinate decoder
validates the `coordinates` data (a missing key is `nil`, which every
decoder rejects); an unrecognized tag decodes with no coordinate field
set, exactly as the library's switch falls through with a nil error. The
`GeometryCollection` branch (which recursively decodes a `geometries`
array into the `Geometries` field) is not carried by this file's flat
`Geometry` representation and is modelled as an error; no theorem below
evaluates that branch, and `GeometryGood` keeps collections out of the
round-trip claim. Error texts elide the library's `%v` payloads. -/
def geometryUnmarshal (j : Json) : Except GoErr Geometry := do
  let j2 ← jsonDeepF64 j
  match j2 with
  | .obj fs =>
    match objLookup fs "type" with
    | none => .error (.msg "type property not defined")
    | some (.str t) =>
      let coords : Json := match objLookup fs "coordinates" with | some c => c | none => .null
      if GeoCoordTag t then
        if geoCoordsOk t coords then .ok ⟨t, coords⟩
        else .error (.msg "geojson: not a valid coordinate payload")
      else if t = "GeometryCollection" then
        .error (.msg "geojson: geometry collections are not carried by this model")
      else .ok ⟨t, .null⟩
    | some _ => .error (.msg "type property not string")
  | _ => .error (.msg "json: cannot unmarshal value into map")

/-- go.geojson `Geometry.MarshalJSON` on the geometries this file
represents: the type tag, and for the six coordinate-carrying tags the
tag-selected coordinate field (a nil slice still marshals, as
`"coordinates": null`, because the interface holding it is non-empty);
for any other tag no coordinate interface is set, so `omitempty` drops
the field, and with nil `Geometries`/`BoundingBox`/`CRS` nothing else is
written. -/
def Geometry.marshalFields (g : Geometry) : List (String × Json) :=
  if GeoCoordTag g.gtype then [("type", .str g.gtype), ("coordinates", g.coordinates)]
  else [("type", .str g.gtype)]

/-- Marshal one `interface{}` attribute value, dispatching on its dynamic
type exactly as `encoding/json` does. -/
def marshalGoValue : GoValue → Except GoErr Json
  | .str s => .ok (.str s)
  | .float q => .ok (.num q)
  | .int n => .ok (.num (mkRat n 1))
  | .bool b => .ok (.bool b)
  | .orionTime t => (marshalOrionTime t).map (fun l => .str (String.mk l))
  | .time t => (marshalGoTime t).map (fun l => .str (String.mk l))
  | .geoPoint p => .ok (.str (String.mk p.marshalChars))
  | .geometry g => .ok (.obj g.marshalFields)
  | .json j => .ok j
  | .null => .ok .null

def marshalMetadataList : List (String × Metadata) → Except GoErr (List (String × Json))
  | [] => .ok []
  | (k, m) :: rest => do
    let v ← marshalGoValue m.value
    let r ← marshalMetadataList rest
    let tf : List (String × Json) := if m.type = "" then [] else [("type", .str m.type)]
    .ok ((k, .obj (tf ++ [("value", v)])) :: r)

/-- Marshal of the `Attribute` struct: embedded `typeValue` fields
(`type` with omitempty, `value`) then `metadata` with omitempty. -/
def marshalAttribute (a : Attribute) : Except GoErr Json := do
  let v ← marshalGoValue a.value
  let md ← marshalMetadataList a.metadata
  let tf : List (String × Json) := if a.type = "" then [] else [("type", .str a.type)]
  let mf : List (String × Json) := if a.metadata.isEmpty then [] else [("metadata", .obj md)]
  .ok (.obj (tf ++ [("value", v)] ++ mf))

def marshalAttrList : List (String × Attribute) → Except GoErr (List (String × Json))
  | [] => .ok []
  | (k, a) :: rest => do
    let j ← marshalAttribute a
    let r ← marshalAttrList rest
    .ok ((k, j) :: r)

/-- Go `Entity.MarshalJSON`: one flat object holding every attribute under
its name, then the fixed fields overlaid from the struct tags (`id`, and
`type` — the reflection loop writes it even when empty), fixed fields
winning on collision. -/
def Entity.MarshalJSON (e : Entity) : Except GoErr Json := do
  let data ← marshalAttrList e.attributes
  .ok (.obj (setField (setField data "id" (.str e.id)) "type" (.str e.type)))

/-- `json.Unmarshal` of an arbitrary document into `interface{}`:
strings, booleans and null map to themselves, a number becomes the
nearest float64 (an error when it overflows), arrays and objects become
generic composites. Composite payloads are kept verbatim: on the
float64-valued documents considered in the theorems this matches Go, and
nothing in this codec reads composite numbers back. -/
def decodeGeneric : Json → Except GoErr GoValue
  | .str s => .ok (.str s)
  | .bool b => .ok (.bool b)
  | .null => .ok .null
  | .num q =>
    let r := f64round q
    if f64overflow r then .error (.msg "json: number out of range") else .ok (.float r)
  | .arr xs => .ok (.json (.arr xs))
  | .obj fs => .ok (.json (.obj fs))

/-- Decode a JSON value into a Go string-typed struct field by its exact
tag key: absent and null leave the zero value; anything but a string is
an error. Used for the `type` field of attribute and metadata objects;
encoding/json also fold-matches keys there (like the duplicate-key
quotient of `objLookup`, this coincides with Go on every document whose
attribute-object keys match the tags only literally — all documents the
entity marshaler emits, and all that the theorems below decode). -/
def readStrField (fields : List (String × Json)) (k : String) : Except GoErr String :=
  match objLookup fields k with
  | none => .ok ""
  | some (.str s) => .ok s
  | some .null => .ok ""
  | some _ => .error (.msg ("json: cannot unmarshal value into string field " ++ k))

/-- The decode of one string struct field by `encoding/json`, with its
case-insensitive key matching: the object is scanned in order; every key
that case-folds to the field tag must hold a string (`null` leaves the
field untouched, any other shape is an `UnmarshalTypeError`); the last
string assigned wins, absence leaves the zero value. When keys matching
two different fields are both ill-typed, Go reports whichever comes
first in the document, while reading field by field reports the scanned
field's error; both fail the decode, only the error text differs. -/
def readStrFieldFold : List (String × Json) → String → String → Except GoErr String
  | [], _, acc => .ok acc
  | (k, v) :: rest, tag, acc =>
    if eqFoldName k tag then
      match v with
      | .str s => readStrFieldFold rest tag s
      | .null => readStrFieldFold rest tag acc
      | _ => .error (.msg ("json: cannot unmarshal value into string field " ++ tag))
    else readStrFieldFold rest tag acc

def decodeMetadata (j : Json) : Except GoErr Metadata :=
  match j with
  | .obj fs => do
    let t ← readStrField fs "type"
    let v ← match objLookup fs "value" with
      | none => .ok GoValue.null
      | some jv => decodeGeneric jv
    .ok ⟨t, v⟩
  | .null => .ok ⟨"", .null⟩
  | _ => .error (.msg "json: cannot unmarshal value into Metadata")

def decodeMetadataList : List (String × Json) → Except GoErr (List (String × Metadata))
  | [] => .ok []
  | (k, j) :: rest => do
    let m ← decodeMetadata j
    let r ← decodeMetadataList rest
    .ok ((k, m) :: r)

/-- The derived `json.Unmarshal` into the `Attribute` struct: `type` is a
string tag, `value` is decoded generically, `metadata` is a map of
`Metadata`. -/
def unmarshalAttribute (j : Json) : Except GoErr Attribute :=
  match j with
  | .obj fs => do
    let t ← readStrField fs "type"
    let v ← match objLookup fs "value" with
      | none => .ok GoValue.null
      | some jv => decodeGeneric jv
    let md ← match objLookup fs "metadata" with
      | none => .ok []
      | some (.obj mfs) => decodeMetadataList mfs
      | some .null => .ok []
      | some _ => .error (.msg "json: cannot unmarshal value into field metadata")
    .ok ⟨t, v, md⟩
  | .null => .ok ⟨"", .null, []⟩
  | _ => .error (.msg "json: cannot unmarshal value into Attribute")

/-- The per-type reification switch of `Entity.UnmarshalJSON` (the error
texts elide the `%v` payload of the Go messages):
- `DateTime`: the value must be a string; a parseable RFC3339 string is
  replaced by the parsed `time.Time`, an unparseable one is kept raw (the
  parse error is discarded);
- `geo:point`: the value must be a string; a well-formed `lat, lon` string
  is replaced by the parsed `*GeoPoint`, a malformed one is kept raw;
- `geo:json`: the raw attribute document must hold a `value` key whose
  content the geometry codec accepts; its errors abort the decode;
- every other tag passes through unchanged. -/
def reifyAttribute (aJson : Json) (a : Attribute) : Except GoErr Attribute :=
  if a.type = DateTimeType then
    match a.value with
    | .str val =>
      match parseRFC3339 val with
      | some t => .ok { a with value := .time t }
      | none => .ok a
    | _ => .error (.msg "Invalid DateTimeType value")
  else if a.type = GeoPointType then
    match a.value with
    | .str val =>
      match geoPointUnmarshal val with
      | .ok g => .ok { a with value := .geoPoint g }
      | .error _ => .ok a
    | _ => .error (.msg "Invalid geo:point value")
  else if a.type = GeoJSONType then
    match aJson with
    | .obj ma =>
      match objLookup ma "value" with
      | none => .error (.msg "Invalid geo:json value")
      | some gJSON => do
        let g ← geometryUnmarshal gJSON
        .ok { a with value := .geometry g }
    | _ => .error (.msg "Invalid geo:json value")
  else .ok a

/-- One iteration of the attribute loop of `Entity.UnmarshalJSON`:
generic struct decode followed by per-type reification. -/
def attrStep (aj : Json) : Except GoErr Attribute := do
  let a0 ← unmarshalAttribute aj
  reifyAttribute aj a0

/-- The attribute loop of `Entity.UnmarshalJSON` (the invalid-field-syntax
warning is print-only and has no effect on the result). -/
def decodeAttrsLoop : List (String × Json) → List (String × Attribute) →
    Except GoErr (List (String × Attribute))
  | [], acc => .ok acc
  | (name, aj) :: rest, acc => do
    let a ← attrStep aj
    decodeAttrsLoop rest (setAttr acc name a)

/-- Go `Entity.UnmarshalJSON`: the first-pass `json.Unmarshal` decodes
the fixed string fields with encoding/json's case-insensitive key
matching (`Attributes` is tagged `json:"-"` and skipped); the reflection
loop then deletes exactly the literal tag keys `id` and `type` from the
raw map, and everything left decodes as attributes with per-type
reification. -/
def Entity.UnmarshalJSON (j : Json) : Except GoErr Entity :=
  match j with
  | .obj fields => do
    let id ← readStrFieldFold fields "id" ""
    let typ ← readStrFieldFold fields "type" ""
    let dyn := fields.filter (fun kv => !(kv.1 == "id") && !(kv.1 == "type"))
    let attrs ← decodeAttrsLoop dyn []
    .ok ⟨id, typ, attrs⟩
  | _ => .error (.msg "json: cannot unmarshal value into Entity")

theorem fieldRunesOk_eq_all : ∀ l : List Char, fieldRunesOk l = l.all fieldCharOk := by
  intro l
  induction l with
  | nil => rfl
  | cons r rest ih =>
    unfold fieldRunesOk
    rw [List.all_cons, ← ih]
    unfold fieldCharOk
    cases h : (goIsControl r || goIsSpace r || InvalidFieldChars.toList.contains r) <;> simp [h]

/-- C6: `IsValidFieldSyntax(s)` returns true if and only if the length of
`s` (UTF-8 bytes, as Go `len`) is between 1 and 256 inclusive and no
character of `s` is a control character, a whitespace character, or one of
the four delimiters `&`, `?`, `/`, `#`; in particular it rejects
`"bad id"` and `"Office?"` and accepts `"openspace"` and `"Office"`. -/
theorem c6_valid_field_syntax_iff :
    (∀ c : Char, fieldCharOk c = true ↔
      goIsControl c = false ∧ goIsSpace c = false ∧
        (c ≠ '&' ∧ c ≠ '?' ∧ c ≠ '/' ∧ c ≠ '#')) ∧
    (∀ s : String, IsValidFieldSyntaxOk s = true ↔
      (1 ≤ s.utf8ByteSize ∧ s.utf8ByteSize ≤ 256 ∧
        ∀ c ∈ s.toList, fieldCharOk c = true)) ∧
    IsValidFieldSyntaxOk "bad id" = false ∧ IsValidFieldSyntaxOk "Office?" = false ∧
    IsValidFieldSyntaxOk "openspace" = true ∧ IsValidFieldSyntaxOk "Office" = true := by
  refine ⟨?_, ?_, by decide, by decide, by decide, by decide⟩
  · intro c
    unfold fieldCharOk
    have htl : InvalidFieldChars.toList = ['&', '?', '/', '#'] := rfl
    have hd : InvalidFieldChars.data = ['&', '?', '/', '#'] := rfl
    cases hc : goIsControl c <;> cases hs : goIsSpace c <;>
      simp [hc, hs, htl, hd, List.contains]
  · intro s
    unfold IsValidFieldSyntaxOk
    by_cases hlen : (s.utf8ByteSize < 1 || 256 < s.utf8ByteSize) = true
    · rw [if_pos hlen]
      simp only [Bool.or_eq_true, decide_eq_true_eq] at hlen
      constructor
      · intro hfalse; exact absurd hfalse (by simp)
      · rintro ⟨h1, h2, -⟩
        rcases hlen with h | h <;> omega
    · rw [if_neg hlen]
      simp only [Bool.or_eq_true, decide_eq_true_eq, not_or, not_lt] at hlen
      rw [fieldRunesOk_eq_all, List.all_eq_true]
      exact ⟨fun h => ⟨hlen.1, hlen.2, h⟩, fun h => h.2.2⟩

/-- C8: `GetAsBoolean` is strict: on a `Boolean`-tagged attribute it
returns the value exactly when the underlying value is literally a Go
bool, and returns the casting error for every other underlying
representation, in particular for the number `1`. -/
theorem c8_getAsBoolean_strict :
    (∀ a : Attribute, a.type = BooleanType →
      (∀ b : Bool, a.value = .bool b → a.GetAsBoolean = .ok b) ∧
      ((∀ b : Bool, a.value ≠ .bool b) → a.GetAsBoolean = .err .invalidCast)) ∧
    (NewAttribute BooleanType (.float 1)).GetAsBoolean = .err .invalidCast := by
  refine ⟨?_, rfl⟩
  intro a ht
  unfold Attribute.GetAsBoolean
  rw [if_neg (by simp [ht])]
  constructor
  · intro b hv; rw [hv]
  · intro hnot
    cases hv : a.value <;> first
      | rfl
      | exact absurd hv (hnot _)

/-- C8 witness: the theorem applied at a concrete `Boolean` attribute. -/
theorem c8_getAsBoolean_strict_witness :
    (NewAttribute BooleanType (.bool true)).GetAsBoolean = .ok true :=
  (c8_getAsBoolean_strict.1 (NewAttribute BooleanType (.bool true)) rfl).1 true rfl

/-- C10: the typed getters are tolerant across paired tags: `GetAsString`
returns the underlying string for both the `String` and the `Text` tag,
`GetAsFloat` returns the underlying float64 for both the `Float` and the
`Number` tag, and any other tag produces the type-mismatch error. -/
theorem c10_paired_tag_getters :
    (∀ (a : Attribute) (s : String), (a.type = StringType ∨ a.type = TextType) →
      a.value = .str s → a.GetAsString = .ok s) ∧
    (∀ a : Attribute, a.type ≠ StringType → a.type ≠ TextType →
      a.GetAsString = .err (.msg ("Attribute is nor String or Text, but " ++ a.type))) ∧
    (∀ (a : Attribute) (q : Rat), (a.type = FloatType ∨ a.type = NumberType) →
      a.value = .float q → a.GetAsFloat = .ok q) ∧
    (∀ a : Attribute, a.type ≠ FloatType → a.type ≠ NumberType →
      a.GetAsFloat = .err (.msg ("Attribute is nor Float or Number, but " ++ a.type))) := by
  refine ⟨?_, ?_, ?_, ?_⟩
  · intro a s ht hv
    unfold Attribute.GetAsString
    rw [if_neg (by rcases ht with h | h <;> simp [h, StringType, TextType])]
    rw [hv]
  · intro a h1 h2
    unfold Attribute.GetAsString
    rw [if_pos ⟨h1, h2⟩]
  · intro a q ht hv
    unfold Attribute.GetAsFloat
    rw [if_neg (by rcases ht with h | h <;> simp [h, FloatType, NumberType])]
    rw [hv]
  · intro a h1 h2
    unfold Attribute.GetAsFloat
    rw [if_pos ⟨h1, h2⟩]

/-- C10 witness: the theorem applied at concrete attributes. -/
theorem c10_paired_tag_getters_witness :
    (Attribute.GetAsString (NewAttribute TextType (.str "hi")) = .ok "hi") ∧
    (Attribute.GetAsFloat (NewAttribute NumberType (.float (23 : Rat))) = .ok 23) ∧
    (Attribute.GetAsFloat (NewAttribute IntegerType (.int 3))
      = .err (.msg ("Attribute is nor Float or Number, but " ++ IntegerType))) :=
  ⟨c10_paired_tag_getters.1 _ "hi" (Or.inr rfl) rfl,
   c10_paired_tag_getters.2.2.1 _ 23 (Or.inr rfl) rfl,
   c10_paired_tag_getters.2.2.2 _ (by decide) (by decide)⟩

/-- C7: every mutator is atomic on failure: whenever it returns a non-nil
error, the entity after the call is exactly the entity before it. -/
theorem c7_setters_atomic (e : Entity) (name : String) :
    (∀ typ v, (e.SetAttribute name typ v).2 ≠ none → (e.SetAttribute name typ v).1 = e) ∧
    (∀ s, (e.SetAttributeAsString name s).2 ≠ none → (e.SetAttributeAsString name s).1 = e) ∧
    (∀ s, (e.SetAttributeAsText name s).2 ≠ none → (e.SetAttributeAsText name s).1 = e) ∧
    (∀ q, (e.SetAttributeAsNumber name q).2 ≠ none → (e.SetAttributeAsNumber name q).1 = e) ∧
    (∀ n, (e.SetAttributeAsInteger name n).2 ≠ none → (e.SetAttributeAsInteger name n).1 = e) ∧
    (∀ q, (e.SetAttributeAsFloat name q).2 ≠ none → (e.SetAttributeAsFloat name q).1 = e) ∧
    (∀ b, (e.SetAttributeAsBoolean name b).2 ≠ none → (e.SetAttributeAsBoolean name b).1 = e) ∧
    (∀ t, (e.SetAttributeAsDateTime name t).2 ≠ none → (e.SetAttributeAsDateTime name t).1 = e) ∧
    (∀ p, (e.SetAttributeAsGeoPoint name p).2 ≠ none → (e.SetAttributeAsGeoPoint name p).1 = e) ∧
    (∀ g, (e.SetAttributeAsGeoJSON name g).2 ≠ none → (e.SetAttributeAsGeoJSON name g).1 = e) ∧
    (∀ v, (e.SetAttributeAsStructuredValue name v).2 ≠ none →
      (e.SetAttributeAsStructuredValue name v).1 = e) := by
  cases hv : validateAttributeName name with
  | some er =>
    refine ⟨?_, ?_, ?_, ?_, ?_, ?_, ?_, ?_, ?_, ?_, ?_⟩ <;>
      intro x h <;>
      simp [Entity.SetAttribute, Entity.SetAttributeAsString, Entity.SetAttributeAsText,
        Entity.SetAttributeAsNumber, Entity.SetAttributeAsInteger, Entity.SetAttributeAsFloat,
        Entity.SetAttributeAsBoolean, Entity.SetAttributeAsDateTime,
        Entity.SetAttributeAsGeoPoint, Entity.SetAttributeAsGeoJSON,
        Entity.SetAttributeAsStructuredValue, hv]
  | none =>
    refine ⟨?_, ?_, ?_, ?_, ?_, ?_, ?_, ?_, ?_, ?_, ?_⟩ <;> intro x h
    case _ => intro h2; simp [Entity.SetAttribute, hv] at h2
    all_goals first
      | (simp only [Entity.SetAttributeAsString, Entity.SetAttributeAsText, hv] at h ⊢
         by_cases hs : IsValidString x <;> simp [hs] at h ⊢)
      | simp [Entity.SetAttribute, Entity.SetAttributeAsNumber, Entity.SetAttributeAsInteger,
          Entity.SetAttributeAsFloat, Entity.SetAttributeAsBoolean,
          Entity.SetAttributeAsDateTime, Entity.SetAttributeAsGeoPoint,
          Entity.SetAttributeAsGeoJSON, Entity.SetAttributeAsStructuredValue, hv] at h

/-- C7 witness: the theorem applied at a concrete failing mutation. -/
theorem c7_setters_atomic_witness :
    (sampleEntity.SetAttributeAsString "bad name" "v").1 = sampleEntity :=
  (c7_setters_atomic sampleEntity "bad name").2.1 "v" (by decide)

/-- C5 counterexample: `dateExpires` is not in `ReservedAttrNames`, so
`SetAttributeAsString` on the name `dateExpires` succeeds and writes the
attribute, refuting that all three builtin names are reserved for every
mutator. -/
theorem c5_dateExpires_not_reserved :
    (sampleEntity.SetAttributeAsString "dateExpires" "soon").2 = none ∧
    getAttr (sampleEntity.SetAttributeAsString "dateExpires" "soon").1.attributes "dateExpires"
      = some (NewAttribute StringType (.str "soon")) :=
  ⟨rfl, rfl⟩

/-- C5 amended: only `dateCreated` and `dateModified` (together with `id`,
`type`, `geo:distance`) are reserved: every mutator invoked with either
name fails and leaves the entity unchanged, while `dateExpires` is NOT
reserved and is accepted by the ordinary mutators; the dedicated
accessors (`SetDateExpires`, `GetDateCreated`, `GetDateModified`,
`GetDateExpires`) address the builtin names directly. -/
theorem c5_reserved_builtin_names :
    (∀ (e : Entity) (name : String),
      (name = DateCreatedAttributeName ∨ name = DateModifiedAttributeName) →
      (∀ typ v, (e.SetAttribute name typ v).2 ≠ none ∧ (e.SetAttribute name typ v).1 = e) ∧
      (∀ s, (e.SetAttributeAsString name s).2 ≠ none ∧ (e.SetAttributeAsString name s).1 = e) ∧
      (∀ s, (e.SetAttributeAsText name s).2 ≠ none ∧ (e.SetAttributeAsText name s).1 = e) ∧
      (∀ q, (e.SetAttributeAsNumber name q).2 ≠ none ∧ (e.SetAttributeAsNumber name q).1 = e) ∧
      (∀ n, (e.SetAttributeAsInteger name n).2 ≠ none ∧ (e.SetAttributeAsInteger name n).1 = e) ∧
      (∀ q, (e.SetAttributeAsFloat name q).2 ≠ none ∧ (e.SetAttributeAsFloat name q).1 = e) ∧
      (∀ b, (e.SetAttributeAsBoolean name b).2 ≠ none ∧ (e.SetAttributeAsBoolean name b).1 = e) ∧
      (∀ t, (e.SetAttributeAsDateTime name t).2 ≠ none ∧ (e.SetAttributeAsDateTime name t).1 = e) ∧
      (∀ p, (e.SetAttributeAsGeoPoint name p).2 ≠ none ∧ (e.SetAttributeAsGeoPoint name p).1 = e) ∧
      (∀ g, (e.SetAttributeAsGeoJSON name g).2 ≠ none ∧ (e.SetAttributeAsGeoJSON name g).1 = e) ∧
      (∀ v, (e.SetAttributeAsStructuredValue name v).2 ≠ none ∧
        (e.SetAttributeAsStructuredValue name v).1 = e)) ∧
    (∀ (e : Entity) (v : String), IsValidString v = true →
      (e.SetAttributeAsString DateExpiresAttributeName v).2 = none) ∧
    (∀ (e : Entity) (t : GoTime),
      getAttr (e.SetDateExpires t).attributes DateExpiresAttributeName
        = some (NewAttribute DateTimeType (.orionTime t))) := by
  refine ⟨?_, ?_, ?_⟩
  · intro e name hname
    have hv : validateAttributeName name = some (.msg ("\x27" ++ name ++ "\x27 is not a valid attribute name")) := by
      rcases hname with h | h <;> subst h <;> rfl
    refine ⟨?_, ?_, ?_, ?_, ?_, ?_, ?_, ?_, ?_, ?_, ?_⟩ <;> intro x <;>
      simp [Entity.SetAttribute, Entity.SetAttributeAsString, Entity.SetAttributeAsText,
        Entity.SetAttributeAsNumber, Entity.SetAttributeAsInteger, Entity.SetAttributeAsFloat,
        Entity.SetAttributeAsBoolean, Entity.SetAttributeAsDateTime,
        Entity.SetAttributeAsGeoPoint, Entity.SetAttributeAsGeoJSON,
        Entity.SetAttributeAsStructuredValue, hv]
  · intro e v hvstr
    have hv : validateAttributeName DateExpiresAttributeName = none := rfl
    simp [Entity.SetAttributeAsString, hv, hvstr]
  · intro e t
    unfold Entity.SetDateExpires
    induction e.attributes with
    | nil => rfl
    | cons kv rest ih =>
      by_cases hk : kv.1 = DateExpiresAttributeName <;>
        simp [setAttr, getAttr, hk, ih]

/-- C5 witness: the amended theorem applied at concrete inputs. -/
theorem c5_reserved_builtin_names_witness :
    ((sampleEntity.SetAttributeAsString "dateCreated" "x").2 ≠ none ∧
      (sampleEntity.SetAttributeAsString "dateCreated" "x").1 = sampleEntity) ∧
    (sampleEntity.SetAttributeAsString "dateExpires" "x").2 = none :=
  ⟨(c5_reserved_builtin_names.1 sampleEntity "dateCreated" (Or.inl rfl)).2.1 "x",
   c5_reserved_builtin_names.2.1 sampleEntity "x" (by decide)⟩

/-- C2 (code bug): the unchecked type assertion `a.Value.(int)` in
`GetAsInteger` panics on an `Integer`-tagged attribute whose value is a
string, contradicting the no-panic policy; every other typed accessor
returns normally with a result or an error for every input. -/
theorem c2_getAsInteger_panics :
    (NewAttribute IntegerType (.str "x")).GetAsInteger
      = .crash "interface conversion: interface is not int" ∧
    (∀ (a : Attribute) (s : String),
      a.GetAsString ≠ .crash s ∧ a.GetAsFloat ≠ .crash s ∧ a.GetAsBoolean ≠ .crash s ∧
      a.GetAsDateTime ≠ .crash s ∧ a.GetAsGeoPoint ≠ .crash s ∧ a.GetAsGeoJSON ≠ .crash s ∧
      a.DecodeStructuredValue ≠ .crash s) := by
  refine ⟨rfl, ?_⟩
  intro a s
  refine ⟨?_, ?_, ?_, ?_, ?_, ?_, ?_⟩ <;>
    simp only [Attribute.GetAsString, Attribute.GetAsFloat, Attribute.GetAsBoolean,
      Attribute.GetAsDateTime, Attribute.GetAsGeoPoint, Attribute.GetAsGeoJSON,
      Attribute.DecodeStructuredValue] <;>
    split <;> cases a.value <;> simp

@[simp] theorem exceptBindOk {α β : Type} (a : α) (f : α → Except GoErr β) :
    (Except.ok a >>= f) = f a := rfl

@[simp] theorem exceptBindError {α β : Type} (e : GoErr) (f : α → Except GoErr β) :
    ((Except.error e : Except GoErr α) >>= f) = Except.error e := rfl

theorem natLog2Aux_spec : ∀ fuel n : Nat, 1 ≤ n → n ≤ fuel →
    2 ^ natLog2Aux fuel n ≤ n ∧ n < 2 ^ (natLog2Aux fuel n + 1) := by
  intro fuel
  induction fuel with
  | zero => intro n h1 h2; omega
  | succ f ih =>
    intro n h1 h2
    unfold natLog2Aux
    by_cases h : 2 ≤ n
    · rw [if_pos h]
      have hrec := ih (n / 2) (by omega) (by omega)
      have e1 : 2 ^ natLog2Aux f (n / 2) ≤ n / 2 := hrec.1
      have e2 : n / 2 < 2 ^ (natLog2Aux f (n / 2) + 1) := hrec.2
      have p1 : 2 ^ (natLog2Aux f (n / 2) + 1) = 2 * 2 ^ natLog2Aux f (n / 2) := by
        rw [pow_succ]; ring
      have p2 : 2 ^ (natLog2Aux f (n / 2) + 1 + 1) = 2 * 2 ^ (natLog2Aux f (n / 2) + 1) := by
        rw [pow_succ _ (natLog2Aux f (n / 2) + 1)]; ring
      constructor <;> omega
    · rw [if_neg h]
      have : n = 1 := by omega
      subst this
      norm_num

theorem natLog2_spec (n : Nat) (h : 1 ≤ n) :
    2 ^ natLog2 n ≤ n ∧ n < 2 ^ (natLog2 n + 1) :=
  natLog2Aux_spec n n h le_rfl

theorem ratScalePow2_eq (q : Rat) (s : Int) : ratScalePow2 q s = q * (2 : Rat) ^ s := by
  unfold ratScalePow2
  by_cases h : 0 ≤ s
  · rw [if_pos h, Rat.mkRat_eq_div]
    calc ((q.num * (2 ^ s.toNat : Nat) : Int) : Rat) / (q.den : Rat)
        = ((q.num : Rat) / q.den) * ((2 : Rat) ^ s.toNat) := by push_cast; ring
      _ = q * (2 : Rat) ^ s := by
          rw [Rat.num_div_den, ← zpow_natCast (2 : Rat) s.toNat, Int.toNat_of_nonneg h]
  · rw [if_neg h, Rat.mkRat_eq_div]
    calc (q.num : Rat) / ((q.den * 2 ^ (-s).toNat : Nat) : Rat)
        = ((q.num : Rat) / q.den) * ((2 : Rat) ^ (-s).toNat)⁻¹ := by push_cast; ring
      _ = q * (2 : Rat) ^ s := by
          rw [Rat.num_div_den, ← zpow_natCast (2 : Rat) (-s).toNat,
            Int.toNat_of_nonneg (by omega : (0 : Int) ≤ -s), ← zpow_neg, neg_neg]

theorem roundHalfEven_den_one (x : Rat) (h : x.den = 1) : roundHalfEven x = x.num := by
  unfold roundHalfEven
  rw [h]
  simp [Int.fdiv_one]

theorem roundHalfEven_intCast (n : Int) : roundHalfEven ((n : Int) : Rat) = n := by
  rw [roundHalfEven_den_one _ (Rat.den_intCast n), Rat.num_intCast]

theorem natPow2_cast (t : Nat) : ((2 ^ t : Nat) : Rat) = (2 : Rat) ^ (t : Int) := by
  push_cast
  rw [zpow_natCast]

theorem ratAbs_natAbs (q : Rat) : |q| = (q.num.natAbs : Rat) / (q.den : Rat) := by
  conv_lhs => rw [← Rat.num_div_den q]
  rw [abs_div, abs_of_nonneg (show (0 : Rat) ≤ (q.den : Rat) by positivity)]
  congr 1
  simp [Int.cast_natAbs]

theorem pow2AbsLe_iff (e : Int) (q : Rat) :
    pow2AbsLe e q = true ↔ (2 : Rat) ^ e ≤ |q| := by
  have hden : (0 : Rat) < (q.den : Rat) := by exact_mod_cast q.den_pos
  unfold pow2AbsLe
  by_cases h : 0 ≤ e
  · rw [if_pos h, decide_eq_true_eq, ratAbs_natAbs, le_div_iff hden]
    rw [show (2 : Rat) ^ e = ((2 ^ e.toNat : Nat) : Rat) by
      rw [natPow2_cast, show ((e.toNat : Nat) : Int) = e from by omega]]
    rw [show ((2 ^ e.toNat : Nat) : Rat) * (q.den : Rat) = ((q.den * 2 ^ e.toNat : Nat) : Rat) by
      push_cast; ring]
    exact Nat.cast_le.symm
  · rw [if_neg h, decide_eq_true_eq, ratAbs_natAbs, le_div_iff hden]
    rw [show (2 : Rat) ^ e = ((2 : Rat) ^ (-e).toNat)⁻¹ by
      rw [← zpow_natCast (2 : Rat) (-e).toNat, ← zpow_neg,
        show (-(((-e).toNat : Nat) : Int)) = e from by omega]]
    rw [inv_mul_le_iff₀ (by positivity : (0 : Rat) < (2 : Rat) ^ (-e).toNat)]
    rw [show ((2 : Rat) ^ (-e).toNat * (q.num.natAbs : Rat)) = ((q.num.natAbs * 2 ^ (-e).toNat : Nat) : Rat) by
      push_cast; ring]
    exact Nat.cast_le.symm

theorem qlog2_spec (q : Rat) (h : q ≠ 0) :
    (2 : Rat) ^ qlog2 q ≤ |q| ∧ |q| < (2 : Rat) ^ (qlog2 q + 1) := by
  have hnum : 1 ≤ q.num.natAbs := by
    have h0 : q.num ≠ 0 := Rat.num_ne_zero.mpr h
    omega
  have hden : 1 ≤ q.den := q.den_pos
  obtain ⟨ha1, ha2⟩ := natLog2_spec q.num.natAbs hnum
  obtain ⟨hb1, hb2⟩ := natLog2_spec q.den hden
  have hdenq : (0 : Rat) < (q.den : Rat) := by exact_mod_cast q.den_pos
  have h2pos : ∀ s : Int, (0 : Rat) < (2 : Rat) ^ s := fun s => zpow_pos (by norm_num) s
  have habs : |q| = (q.num.natAbs : Rat) / (q.den : Rat) := ratAbs_natAbs q
  set a := natLog2 q.num.natAbs with hadef
  set b := natLog2 q.den with hbdef
  have hhigh : |q| < (2 : Rat) ^ ((a : Int) - b + 1) := by
    rw [habs, div_lt_iff hdenq]
    calc (q.num.natAbs : Rat) < ((2 ^ (a + 1) : Nat) : Rat) := by exact_mod_cast ha2
      _ = (2 : Rat) ^ ((a : Int) + 1) := by
          rw [natPow2_cast, show (((a + 1 : Nat)) : Int) = (a : Int) + 1 from by omega]
      _ = (2 : Rat) ^ ((a : Int) - b + 1) * (2 : Rat) ^ (b : Int) := by
          rw [← zpow_add₀ (two_ne_zero : (2 : Rat) ≠ 0)]; congr 1; omega
      _ ≤ (2 : Rat) ^ ((a : Int) - b + 1) * (q.den : Rat) := by
          apply mul_le_mul_of_nonneg_left _ (le_of_lt (h2pos _))
          calc (2 : Rat) ^ (b : Int) = ((2 ^ b : Nat) : Rat) := (natPow2_cast b).symm
            _ ≤ (q.den : Rat) := by exact_mod_cast hb1
  have hlow : (2 : Rat) ^ ((a : Int) - b - 1) < |q| := by
    rw [habs, lt_div_iff hdenq]
    calc (2 : Rat) ^ ((a : Int) - b - 1) * (q.den : Rat)
        < (2 : Rat) ^ ((a : Int) - b - 1) * ((2 ^ (b + 1) : Nat) : Rat) := by
          apply mul_lt_mul_of_pos_left _ (h2pos _)
          exact_mod_cast hb2
      _ = (2 : Rat) ^ ((a : Int) : Int) := by
          rw [natPow2_cast, ← zpow_add₀ (two_ne_zero : (2 : Rat) ≠ 0)]; congr 1; omega
      _ ≤ (q.num.natAbs : Rat) := by
          rw [← natPow2_cast]; exact_mod_cast ha1
  have hc1 : pow2AbsLe ((a : Int) - (b : Int) + 1) q = false := by
    cases hp : pow2AbsLe ((a : Int) - (b : Int) + 1) q
    · rfl
    · exact absurd ((pow2AbsLe_iff _ _).mp hp) (not_le.mpr hhigh)
  have hql : qlog2 q = if pow2AbsLe ((a : Int) - b + 1) q then (a : Int) - b + 1
      else if pow2AbsLe ((a : Int) - b) q then (a : Int) - b else (a : Int) - b - 1 := rfl
  rw [hql, hc1]
  simp only [Bool.false_eq_true, if_false]
  by_cases h2 : pow2AbsLe ((a : Int) - (b : Int)) q = true
  · rw [h2]
    simp only [if_true]
    exact ⟨(pow2AbsLe_iff _ _).mp h2, hhigh⟩
  · rw [Bool.not_eq_true] at h2
    rw [h2]
    simp only [Bool.false_eq_true, if_false]
    constructor
    · exact le_of_lt (by simpa using hlow)
    · have hnle : ¬ (2 : Rat) ^ ((a : Int) - b) ≤ |q| := fun hc =>
        absurd ((pow2AbsLe_iff _ _).mpr hc) (by rw [h2]; simp)
      have := not_le.mp hnle
      simpa using this

theorem f64round_eq_self (q : Rat) (h : IsF64 q) : f64round q = q := by
  by_cases hq0 : q = 0
  · rw [hq0]; unfold f64round; rw [if_pos rfl]
  · rcases h with h0 | ⟨m, e, hq, hm, he, hlt⟩
    · exact absurd h0 hq0
    have hub : qlog2 q ≤ e + 52 := by
      by_contra hc
      push_neg at hc
      have h1 := (qlog2_spec q hq0).1
      have h2 : |q| < (2 : Rat) ^ (e + 53) := by
        rw [hq, abs_mul, abs_of_pos (zpow_pos (by norm_num : (0:Rat) < 2) e)]
        calc |(m : Rat)| * (2 : Rat) ^ e
            < (2 : Rat) ^ (53 : Int) * (2 : Rat) ^ e := by
              apply mul_lt_mul_of_pos_right _ (zpow_pos (by norm_num) e)
              have hmq : |(m : Rat)| = ((m.natAbs : Nat) : Rat) := by
                simp [Int.cast_natAbs]
              rw [hmq]
              calc ((m.natAbs : Nat) : Rat) < ((2 ^ 53 : Nat) : Rat) := by exact_mod_cast hm
                _ = (2 : Rat) ^ (53 : Int) := by rw [natPow2_cast]; norm_num
          _ = (2 : Rat) ^ (e + 53) := by
              rw [← zpow_add₀ (two_ne_zero : (2 : Rat) ≠ 0)]; congr 1; omega
      have h3 : (2 : Rat) ^ (e + 53) ≤ (2 : Rat) ^ qlog2 q :=
        zpow_le_zpow_right₀ (by norm_num) (by omega)
      exact absurd (lt_of_le_of_lt h1 h2) (not_lt.mpr h3)
    unfold f64round
    rw [if_neg hq0]
    set s := f64scale q with hsdef
    have hse : s ≤ e := by
      rw [hsdef]
      unfold f64scale
      exact max_le (by omega) he
    have hint : ratScalePow2 q (-s) = ((m * 2 ^ (e - s).toNat : Int) : Rat) := by
      rw [ratScalePow2_eq, hq]
      push_cast
      rw [← zpow_natCast (2 : Rat) (e - s).toNat, Int.toNat_of_nonneg (by omega)]
      rw [mul_assoc, ← zpow_add₀ (two_ne_zero : (2 : Rat) ≠ 0)]
      congr 2
      all_goals omega
    rw [hint, roundHalfEven_intCast, ratScalePow2_eq, hq]
    push_cast
    rw [← zpow_natCast (2 : Rat) (e - s).toNat, Int.toNat_of_nonneg (by omega)]
    rw [mul_assoc, ← zpow_add₀ (two_ne_zero : (2 : Rat) ≠ 0)]
    congr 2
    all_goals omega

theorem isF64_abs_lt (q : Rat) (h : IsF64 q) : |q| < (2 : Rat) ^ (1024 : Int) := by
  rcases h with h0 | ⟨m, e, hq, hm, he, hlt⟩
  · rw [h0]; simp; exact zpow_pos (by norm_num) _
  · exact hlt

theorem f64overflow_of_isF64 (q : Rat) (h : IsF64 q) : f64overflow q = false := by
  have hlt := isF64_abs_lt q h
  unfold f64overflow
  cases hp : pow2AbsLe 1024 q
  · rfl
  · exact absurd ((pow2AbsLe_iff _ _).mp hp) (not_le.mpr (by exact_mod_cast hlt))

theorem digitChar_isDigit (d : Nat) : isDigitCh (digitChar d) = true := by
  unfold digitChar
  split <;> rfl

theorem digitVal_digitChar (d : Nat) (h : d < 10) : digitVal (digitChar d) = d := by
  interval_cases d <;> rfl

theorem digitVal_lt_ten (c : Char) (h : isDigitCh c = true) : digitVal c < 10 := by
  unfold isDigitCh at h
  unfold digitVal
  simp only [Bool.and_eq_true, decide_eq_true_eq] at h
  omega

theorem digitsToNat_acc (l : List Char) : ∀ acc : Nat,
    digitsToNat l acc = acc * 10 ^ l.length + digitsToNat l 0 := by
  induction l with
  | nil => intro acc; simp [digitsToNat]
  | cons c rest ih =>
    intro acc
    have h1 : digitsToNat (c :: rest) acc = digitsToNat rest (acc * 10 + digitVal c) := rfl
    have h2 : digitsToNat (c :: rest) 0 = digitsToNat rest (0 * 10 + digitVal c) := rfl
    rw [h1, h2, ih (acc * 10 + digitVal c), ih (0 * 10 + digitVal c)]
    simp only [List.length_cons, pow_succ]
    ring

theorem digitsToNat_append (l1 l2 : List Char) (acc : Nat) :
    digitsToNat (l1 ++ l2) acc = digitsToNat l2 (digitsToNat l1 acc) := by
  induction l1 generalizing acc with
  | nil => rfl
  | cons c rest ih => exact ih _

theorem digitsToNat_replicate_zero (k : Nat) (acc : Nat) :
    digitsToNat (List.replicate k '0') acc = acc * 10 ^ k := by
  induction k generalizing acc with
  | zero => simp [digitsToNat]
  | succ j ih =>
    show digitsToNat (List.replicate j '0') (acc * 10 + digitVal '0') = _
    rw [ih]
    show (acc * 10 + 0) * 10 ^ j = acc * 10 ^ (j + 1)
    rw [pow_succ]
    ring

theorem digitsToNat_lt (l : List Char) (h : ∀ c ∈ l, isDigitCh c = true) :
    digitsToNat l 0 < 10 ^ l.length := by
  induction l with
  | nil => simp [digitsToNat]
  | cons c rest ih =>
    have hc := digitVal_lt_ten c (h c (by simp))
    have hr := ih (fun x hx => h x (by simp [hx]))
    have h2 : digitsToNat (c :: rest) 0 = digitsToNat rest (0 * 10 + digitVal c) := rfl
    rw [h2, digitsToNat_acc, List.length_cons, pow_succ]
    have hle : (0 * 10 + digitVal c) * 10 ^ rest.length ≤ 9 * 10 ^ rest.length :=
      Nat.mul_le_mul_right _ (by omega)
    have h9 : 9 * 10 ^ rest.length + 10 ^ rest.length = 10 ^ rest.length * 10 := by ring
    omega

theorem natDecAux_ok : ∀ fuel n : Nat, n < 10 ^ fuel →
    digitsToNat (natDecAux fuel n) 0 = n ∧
    (∀ c ∈ natDecAux fuel n, isDigitCh c = true) := by
  intro fuel
  induction fuel with
  | zero =>
    intro n h
    have : n = 0 := by simpa using h
    subst this
    exact ⟨rfl, by simp [natDecAux]⟩
  | succ f ih =>
    intro n h
    unfold natDecAux
    by_cases h10 : n < 10
    · rw [if_pos h10]
      refine ⟨?_, ?_⟩
      · show 0 * 10 + digitVal (digitChar n) = n
        rw [digitVal_digitChar n h10]
        omega
      · intro c hc
        simp at hc
        rw [hc]
        exact digitChar_isDigit n
    · rw [if_neg h10]
      have hdiv : n / 10 < 10 ^ f := by
        rw [pow_succ] at h
        omega
      obtain ⟨hv, hd⟩ := ih (n / 10) hdiv
      refine ⟨?_, ?_⟩
      · rw [digitsToNat_append, hv]
        show n / 10 * 10 + digitVal (digitChar (n % 10)) = n
        rw [digitVal_digitChar _ (Nat.mod_lt n (by omega))]
        omega
      · intro c hc
        rw [List.mem_append] at hc
        rcases hc with hc | hc
        · exact hd c hc
        · simp at hc
          rw [hc]
          exact digitChar_isDigit _

theorem lt_ten_pow_succ (n : Nat) : n < 10 ^ (n + 1) := by
  calc n < n + 1 := by omega
    _ ≤ 10 ^ (n + 1) := by
        calc n + 1 ≤ 2 ^ (n + 1) := by
              have := Nat.lt_two_pow (n + 1)
              omega
          _ ≤ 10 ^ (n + 1) := Nat.pow_le_pow_left (by omega) _

theorem natDec_val (n : Nat) : digitsToNat (natDec n) 0 = n :=
  (natDecAux_ok (n + 1) n (lt_ten_pow_succ n)).1

theorem natDec_digits (n : Nat) : ∀ c ∈ natDec n, isDigitCh c = true :=
  (natDecAux_ok (n + 1) n (lt_ten_pow_succ n)).2

theorem natDecAux_len : ∀ (fuel n t : Nat), n < 10 ^ fuel → 1 ≤ t → n < 10 ^ t →
    (natDecAux fuel n).length ≤ t := by
  intro fuel
  induction fuel with
  | zero =>
    intro n t h h1 h2
    simp [natDecAux]
  | succ f ih =>
    intro n t h h1 h2
    unfold natDecAux
    by_cases h10 : n < 10
    · rw [if_pos h10]
      simpa using h1
    · rw [if_neg h10]
      rw [List.length_append]
      simp only [List.length_cons, List.length_nil]
      have ht2 : 2 ≤ t := by
        by_contra hc
        have : t = 1 := by omega
        subst this
        simp at h2
        omega
      have hd1 : n / 10 < 10 ^ f := by
        rw [pow_succ] at h
        omega
      have hd2 : n / 10 < 10 ^ (t - 1) := by
        have : 10 ^ t = 10 ^ (t - 1) * 10 := by
          rw [← pow_succ]
          congr 1
          omega
        rw [this] at h2
        omega
      have := ih (n / 10) (t - 1) hd1 (by omega) hd2
      omega

theorem natDec_len (n t : Nat) (h1 : 1 ≤ t) (h : n < 10 ^ t) : (natDec n).length ≤ t :=
  natDecAux_len (n + 1) n t (lt_ten_pow_succ n) h1 h

theorem natDec_ne_nil (n : Nat) : natDec n ≠ [] := by
  unfold natDec natDecAux
  by_cases h10 : n < 10
  · rw [if_pos h10]; simp
  · rw [if_neg h10]; simp

theorem natDec_len_ge (n t : Nat) (h : 10 ^ t ≤ n) : t + 1 ≤ (natDec n).length := by
  by_contra hc
  push_neg at hc
  have hlt := digitsToNat_lt (natDec n) (natDec_digits n)
  rw [natDec_val] at hlt
  have : (10:Nat) ^ (natDec n).length ≤ 10 ^ t := Nat.pow_le_pow_right (by omega) (by omega)
  omega

theorem takeWhile_all_append (p : Char → Bool) (l r : List Char)
    (hl : ∀ c ∈ l, p c = true) (hr : ∀ c, r.head? = some c → p c = false) :
    (l ++ r).takeWhile p = l ∧ (l ++ r).dropWhile p = r := by
  induction l with
  | nil =>
    simp only [List.nil_append]
    cases r with
    | nil => simp
    | cons c rest =>
      have hc := hr c rfl
      rw [List.takeWhile_cons, List.dropWhile_cons, hc]
      simp
  | cons a l2 ih =>
    have ha := hl a (by simp)
    obtain ⟨ih1, ih2⟩ := ih (fun c hc => hl c (by simp [hc]))
    rw [List.cons_append, List.takeWhile_cons, List.dropWhile_cons, ha]
    simp [ih1, ih2]

theorem takeWhile_all (p : Char → Bool) (l : List Char) (hl : ∀ c ∈ l, p c = true) :
    l.takeWhile p = l ∧ l.dropWhile p = [] := by
  have h := takeWhile_all_append p l [] hl (by intro c hc; exact Option.noConfusion hc)
  simpa using h

theorem digit_ne_plus (c : Char) (h : isDigitCh c = true) : ¬ (c = '+') := by
  intro he
  subst he
  simp [isDigitCh] at h

theorem digit_ne_minus (c : Char) (h : isDigitCh c = true) : ¬ (c = '-') := by
  intro he
  subst he
  simp [isDigitCh] at h

theorem dot_not_digit : ∀ c : Char, ('.' :: ([] : List Char)).head? = some c → isDigitCh c = false := by
  intro c hc
  cases hc
  rfl

/-- Decimal parse of an optional minus sign followed by digits. -/
theorem parseDecExact_sign_digits (neg : Bool) (ipd : List Char)
    (hip : ∀ c ∈ ipd, isDigitCh c = true) (hne : ipd ≠ []) :
    parseDecExact ((if neg then ['-'] else []) ++ ipd) = some (mkDecValue neg ipd [] 0) := by
  cases ipd with
  | nil => exact absurd rfl hne
  | cons c0 cs =>
    have hc0 := hip c0 (by simp)
    obtain ⟨htw, hdw⟩ := takeWhile_all isDigitCh (c0 :: cs) hip
    cases neg with
    | false =>
      show parseDecExact (c0 :: cs) = _
      unfold parseDecExact
      dsimp only
      simp only [if_neg (digit_ne_plus c0 hc0), if_neg (digit_ne_minus c0 hc0)]
      rw [htw, hdw]
      simp [List.isEmpty]
    | true =>
      show parseDecExact ('-' :: (c0 :: cs)) = _
      unfold parseDecExact
      dsimp only
      simp only [if_neg (by decide : ¬ (('-' : Char) = '+')),
        if_pos (rfl : ('-' : Char) = '-'), ite_true]
      rw [htw, hdw]
      simp [List.isEmpty]

/-- Decimal parse of an optional minus sign, digits, a point and more
digits. -/
theorem parseDecExact_sign_digits_frac (neg : Bool) (ipd fpd : List Char)
    (hip : ∀ c ∈ ipd, isDigitCh c = true) (hne : ipd ≠ [])
    (hfp : ∀ c ∈ fpd, isDigitCh c = true) :
    parseDecExact ((if neg then ['-'] else []) ++ ipd ++ '.' :: fpd)
      = some (mkDecValue neg ipd fpd (-(fpd.length : Int))) := by
  cases ipd with
  | nil => exact absurd rfl hne
  | cons c0 cs =>
    have hc0 := hip c0 (by simp)
    obtain ⟨htw, hdw⟩ := takeWhile_all_append isDigitCh (c0 :: cs) ('.' :: fpd) hip
      (by intro c hc; cases hc; rfl)
    obtain ⟨htw2, hdw2⟩ := takeWhile_all isDigitCh fpd hfp
    cases neg with
    | false =>
      show parseDecExact ((c0 :: cs) ++ '.' :: fpd) = _
      unfold parseDecExact
      rw [show (c0 :: cs) ++ '.' :: fpd = c0 :: (cs ++ '.' :: fpd) from rfl]
      dsimp only
      simp only [if_neg (digit_ne_plus c0 hc0), if_neg (digit_ne_minus c0 hc0)]
      rw [show c0 :: (cs ++ '.' :: fpd) = (c0 :: cs) ++ '.' :: fpd from rfl, htw, hdw]
      simp [List.isEmpty, htw2, hdw2]
    | true =>
      show parseDecExact ('-' :: ((c0 :: cs) ++ '.' :: fpd)) = _
      unfold parseDecExact
      dsimp only
      simp only [if_neg (by decide : ¬ (('-' : Char) = '+')),
        if_pos (rfl : ('-' : Char) = '-'), ite_true]
      rw [htw, hdw]
      simp [List.isEmpty, htw2, hdw2]

theorem mkDecValue_nofrac (neg : Bool) (ip : List Char) :
    mkDecValue neg ip [] 0 =
      mkRat (if neg then -(digitsToNat ip 0 : Int) else (digitsToNat ip 0 : Int)) 1 := by
  cases neg <;> simp [mkDecValue, digitsToNat]

theorem mkDecValue_neg_len (neg : Bool) (ip fp : List Char) :
    mkDecValue neg ip fp (-(fp.length : Int)) =
      mkRat (if neg then -((digitsToNat ip 0 * 10 ^ fp.length + digitsToNat fp 0 : Nat) : Int)
             else ((digitsToNat ip 0 * 10 ^ fp.length + digitsToNat fp 0 : Nat) : Int))
        (10 ^ fp.length) := by
  by_cases hk : fp.length = 0
  · cases neg <;> simp [mkDecValue, hk]
  · have h1 : ¬ (0 ≤ -(fp.length : Int)) := by omega
    have h2 : (-(-(fp.length : Int))).toNat = fp.length := by omega
    simp only [mkDecValue]
    rw [if_neg h1, h2]

/-- The exact decimal parser inverts the fixed-point printer. -/
theorem parseDecExact_printFixedInt (n : Int) (k : Nat) :
    parseDecExact (printFixedInt n k) = some (mkRat n (10 ^ k)) := by
  have hs : (if n < 0 then (['-'] : List Char) else []) =
      (if decide (n < 0) then ['-'] else []) := by
    by_cases hn : n < 0 <;> simp [hn]
  have hsign : ∀ b : Nat, b = n.natAbs →
      (if decide (n < 0) = true then -(b : Int) else (b : Int)) = n := by
    intro b hb
    by_cases hn : n < 0
    · rw [if_pos (by simpa using hn)]
      omega
    · rw [if_neg (by simpa using hn)]
      omega
  by_cases hk : k = 0
  · subst hk
    have hpr : printFixedInt n 0 =
        (if decide (n < 0) then ['-'] else []) ++ natDec n.natAbs := by
      simp only [printFixedInt]
      rw [if_pos trivial, hs]
    rw [hpr, parseDecExact_sign_digits (decide (n < 0)) (natDec n.natAbs)
        (natDec_digits n.natAbs) (natDec_ne_nil n.natAbs), mkDecValue_nofrac]
    rw [natDec_val, hsign n.natAbs rfl]
    norm_num
  · have hk1 : 1 ≤ k := Nat.one_le_iff_ne_zero.mpr hk
    have hpow : 0 < 10 ^ k := by positivity
    have hfp_lt : n.natAbs % 10 ^ k < 10 ^ k := Nat.mod_lt _ hpow
    have hfdlen : (natDec (n.natAbs % 10 ^ k)).length ≤ k := natDec_len _ k hk1 hfp_lt
    have hfl : (List.replicate (k - (natDec (n.natAbs % 10 ^ k)).length) '0'
        ++ natDec (n.natAbs % 10 ^ k)).length = k := by
      rw [List.length_append, List.length_replicate]
      omega
    have hdig : ∀ c ∈ List.replicate (k - (natDec (n.natAbs % 10 ^ k)).length) '0'
        ++ natDec (n.natAbs % 10 ^ k), isDigitCh c = true := by
      intro c hc
      rcases List.mem_append.mp hc with h | h
      · rw [List.eq_of_mem_replicate h]
        rfl
      · exact natDec_digits _ c h
    have hpr : printFixedInt n k =
        (if decide (n < 0) then ['-'] else []) ++ natDec (n.natAbs / 10 ^ k)
          ++ '.' :: (List.replicate (k - (natDec (n.natAbs % 10 ^ k)).length) '0'
            ++ natDec (n.natAbs % 10 ^ k)) := by
      simp only [printFixedInt]
      rw [if_neg hk, hs, List.append_assoc]
      rfl
    rw [hpr, parseDecExact_sign_digits_frac (decide (n < 0)) _ _
        (natDec_digits _) (natDec_ne_nil _) hdig, mkDecValue_neg_len]
    have hbase : digitsToNat (natDec (n.natAbs / 10 ^ k)) 0
        * 10 ^ (List.replicate (k - (natDec (n.natAbs % 10 ^ k)).length) '0'
            ++ natDec (n.natAbs % 10 ^ k)).length
        + digitsToNat (List.replicate (k - (natDec (n.natAbs % 10 ^ k)).length) '0'
            ++ natDec (n.natAbs % 10 ^ k)) 0 = n.natAbs := by
      rw [hfl, natDec_val, digitsToNat_append, digitsToNat_replicate_zero, Nat.zero_mul,
        natDec_val, Nat.mul_comm (n.natAbs / 10 ^ k) (10 ^ k)]
      exact Nat.div_add_mod _ _
    rw [hbase, hfl, hsign n.natAbs rfl]

/-- A float64 value times `10 ^ 1074` is an integer. -/
theorem isF64_mul_ten_pow (q : Rat) (h : IsF64 q) :
    ∃ z : Int, q * (10 : Rat) ^ (1074 : Nat) = (z : Rat) := by
  rcases h with h0 | ⟨m, e, hq, _, he, _⟩
  · exact ⟨0, by rw [h0]; simp⟩
  · refine ⟨m * 2 ^ (e + 1074).toNat * 5 ^ (1074 : Nat), ?_⟩
    rw [hq]
    have h10 : (10 : Rat) ^ (1074 : Nat) = (2 : Rat) ^ (1074 : Nat) * (5 : Rat) ^ (1074 : Nat) := by
      rw [← mul_pow]
      norm_num
    have h2 : (2 : Rat) ^ e * (2 : Rat) ^ (1074 : Nat) = (2 : Rat) ^ (e + 1074).toNat := by
      rw [← zpow_natCast (2 : Rat) 1074, ← zpow_add₀ (by norm_num : (2 : Rat) ≠ 0),
        ← zpow_natCast (2 : Rat) (e + 1074).toNat]
      congr 1
      omega
    rw [h10]
    push_cast
    calc (m : Rat) * (2 : Rat) ^ e * ((2 : Rat) ^ (1074 : Nat) * (5 : Rat) ^ (1074 : Nat))
        = (m : Rat) * ((2 : Rat) ^ e * (2 : Rat) ^ (1074 : Nat)) * (5 : Rat) ^ (1074 : Nat) := by
          ring
      _ = (m : Rat) * (2 : Rat) ^ (e + 1074).toNat * (5 : Rat) ^ (1074 : Nat) := by rw [h2]

/-- Rounding a float64 value to 1074 decimal fractional digits is exact. -/
theorem decRound_isF64 (q : Rat) (h : IsF64 q) : decRound q 1074 = q := by
  obtain ⟨z, hz⟩ := isF64_mul_ten_pow q h
  have hself : ((q.num : Rat) / (q.den : Rat)) = q := Rat.num_div_den q
  have hnum : mkRat (q.num * ((10 ^ 1074 : Nat) : Int)) q.den = (z : Rat) := by
    rw [Rat.mkRat_eq_div, ← hz]
    conv_rhs => rw [← hself]
    push_cast
    ring
  have hsr : scale10Round q 1074 = z := by
    unfold scale10Round
    rw [hnum]
    exact roundHalfEven_intCast z
  unfold decRound
  rw [hsr, Rat.mkRat_eq_div, ← hz]
  push_cast
  rw [mul_div_assoc, div_self (by positivity : ((10 : Rat) ^ (1074 : Nat)) ≠ 0), mul_one]

/-- The guarded shortest-decimal search succeeds whenever some `k0` in
range satisfies the round-trip test, and any `k` it returns satisfies the
test. -/
theorem shortestFracAux_found (q : Rat) (k0 : Nat) :
    ∀ fuel start, start ≤ k0 → k0 < start + fuel → f64round (decRound q k0) = q →
      ∃ k, shortestFracAux q fuel start = some k ∧ f64round (decRound q k) = q := by
  intro fuel
  induction fuel with
  | zero => intro start h1 h2 _; omega
  | succ f ih =>
    intro start h1 h2 h3
    by_cases hs : f64round (decRound q start) = q
    · exact ⟨start, by simp [shortestFracAux, hs], hs⟩
    · have hne : start ≠ k0 := fun he => hs (he ▸ h3)
      obtain ⟨k, hk, hgood⟩ := ih (start + 1) (by omega) (by omega) h3
      exact ⟨k, by simp [shortestFracAux, hs, hk], hgood⟩

/-- Go float formatting followed by `strconv.ParseFloat` recovers any
float64 value exactly. -/
theorem parseGoFloat_format (q : Rat) (h : IsF64 q) :
    parseGoFloat (formatGoFloat q) = some q := by
  have hgood : f64round (decRound q 1074) = q := by
    rw [decRound_isF64 q h]
    exact f64round_eq_self q h
  obtain ⟨k, hk, hround⟩ := shortestFracAux_found q 1074 1101 0 (by omega) (by omega) hgood
  have hfmt : formatGoFloat q = printFixedInt (scale10Round q k) k := by
    unfold formatGoFloat
    rw [hk]
  rw [hfmt]
  unfold parseGoFloat
  rw [parseDecExact_printFixedInt]
  have hd : mkRat (scale10Round q k) (10 ^ k) = decRound q k := rfl
  rw [hd]
  simp only [hround, f64overflow_of_isF64 q h]
  rfl

/-- Character class of the fixed-point printer output. -/
theorem printFixedInt_chars (n : Int) (k : Nat) :
    ∀ c ∈ printFixedInt n k, isDigitCh c = true ∨ c = '-' ∨ c = '.' := by
  intro c hc
  have hsign : ∀ d : Char, d ∈ (if n < 0 then (['-'] : List Char) else []) → d = '-' := by
    intro d hd
    by_cases hn : n < 0
    · rw [if_pos hn] at hd
      simpa using hd
    · rw [if_neg hn] at hd
      simp at hd
  simp only [printFixedInt] at hc
  by_cases hk : k = 0
  · rw [if_pos hk] at hc
    rcases List.mem_append.mp hc with h | h
    · exact Or.inr (Or.inl (hsign c h))
    · exact Or.inl (natDec_digits _ c h)
  · rw [if_neg hk] at hc
    rcases List.mem_append.mp hc with h | h
    · rcases List.mem_append.mp h with h2 | h2
      · rcases List.mem_append.mp h2 with h3 | h3
        · exact Or.inr (Or.inl (hsign c h3))
        · exact Or.inl (natDec_digits _ c h3)
      · exact Or.inr (Or.inr (by simpa using h2))
    · rcases List.mem_append.mp h with h2 | h2
      · rw [List.eq_of_mem_replicate h2]
        exact Or.inl rfl
      · exact Or.inl (natDec_digits _ c h2)

theorem formatGoFloat_chars (q : Rat) :
    ∀ c ∈ formatGoFloat q, isDigitCh c = true ∨ c = '-' ∨ c = '.' := by
  intro c hc
  unfold formatGoFloat at hc
  rcases hmatch : shortestFracAux q 1101 0 with _ | k
  · rw [hmatch] at hc
    exact printFixedInt_chars _ _ c hc
  · rw [hmatch] at hc
    exact printFixedInt_chars _ _ c hc

theorem formatGoFloat_no_space (q : Rat) :
    ∀ c ∈ formatGoFloat q, goIsSpace c = false := by
  intro c hc
  rcases formatGoFloat_chars q c hc with h | h | h
  · simp only [isDigitCh, Bool.and_eq_true, decide_eq_true_eq] at h
    simp only [goIsSpace]
    simp only [Bool.or_eq_false_iff, Bool.and_eq_false_iff, decide_eq_false_iff_not]
    omega
  · subst h
    rfl
  · subst h
    rfl

theorem formatGoFloat_no_comma (q : Rat) :
    ∀ c ∈ formatGoFloat q, c ≠ ',' := by
  intro c hc he
  subst he
  rcases formatGoFloat_chars q ',' hc with h | h | h
  · simp [isDigitCh] at h
  · exact absurd h (by decide)
  · exact absurd h (by decide)

theorem dropWhile_all_false (p : Char → Bool) (l : List Char)
    (h : ∀ c ∈ l, p c = false) : l.dropWhile p = l := by
  cases l with
  | nil => rfl
  | cons c rest =>
    rw [List.dropWhile_cons, h c (by simp)]
    simp

theorem trimSpaceL_id (l : List Char) (h : ∀ c ∈ l, goIsSpace c = false) :
    trimSpaceL l = l := by
  unfold trimSpaceL
  rw [dropWhile_all_false _ _ h, dropWhile_all_false, List.reverse_reverse]
  intro c hc
  exact h c (List.mem_reverse.mp hc)

theorem trimSpaceL_space_cons (l : List Char) (h : ∀ c ∈ l, goIsSpace c = false) :
    trimSpaceL (' ' :: l) = l := by
  have hsp : goIsSpace ' ' = true := rfl
  unfold trimSpaceL
  rw [List.dropWhile_cons, if_pos hsp, dropWhile_all_false _ _ h, dropWhile_all_false,
    List.reverse_reverse]
  intro c hc
  exact h c (List.mem_reverse.mp hc)

theorem splitComma_no_comma (l : List Char) (h : ∀ c ∈ l, c ≠ ',') :
    splitComma l = [l] := by
  induction l with
  | nil => rfl
  | cons c rest ih =>
    unfold splitComma
    rw [if_neg (h c (by simp)), ih (fun x hx => h x (by simp [hx]))]

theorem splitComma_append (A B : List Char) (h : ∀ c ∈ A, c ≠ ',') :
    splitComma (A ++ ',' :: B) = A :: splitComma B := by
  induction A with
  | nil =>
    show splitComma (',' :: B) = [] :: splitComma B
    conv_lhs => unfold splitComma
    rw [if_pos rfl]
  | cons c rest ih =>
    show splitComma (c :: (rest ++ ',' :: B)) = (c :: rest) :: splitComma B
    conv_lhs => unfold splitComma
    rw [if_neg (h c (by simp)), ih (fun x hx => h x (by simp [hx]))]

/-- The geo:point string codec round-trips any point with float64
coordinates. -/
theorem geoPointUnmarshal_marshal (p : GeoPoint) (hlat : IsF64 p.latitude)
    (hlon : IsF64 p.longitude) :
    geoPointUnmarshal (String.mk p.marshalChars) = .ok p := by
  have hA := formatGoFloat_no_comma p.latitude
  have hAs := formatGoFloat_no_space p.latitude
  have hBs := formatGoFloat_no_space p.longitude
  have hB2 : ∀ c ∈ (' ' :: formatGoFloat p.longitude), c ≠ ',' := by
    intro c hc
    rcases List.mem_cons.mp hc with h | h
    · subst h
      decide
    · exact formatGoFloat_no_comma p.longitude c h
  have hshape : (String.mk p.marshalChars).toList
      = formatGoFloat p.latitude ++ ',' :: (' ' :: formatGoFloat p.longitude) := by
    show p.marshalChars = _
    unfold GeoPoint.marshalChars
    rw [List.append_assoc]
    rfl
  unfold geoPointUnmarshal
  rw [hshape, splitComma_append _ _ hA, splitComma_no_comma _ hB2]
  dsimp only
  rw [trimSpaceL_id _ hAs, parseGoFloat_format _ hlat]
  dsimp only
  rw [trimSpaceL_space_cons _ hBs, parseGoFloat_format _ hlon]

theorem pad2_digits (n : Nat) : ∀ c ∈ pad2 n, isDigitCh c = true := by
  intro c hc
  unfold pad2 at hc
  by_cases h : n < 10
  · rw [if_pos h] at hc
    rcases List.mem_cons.mp hc with h1 | h1
    · subst h1
      rfl
    · rcases List.mem_cons.mp h1 with h2 | h2
      · subst h2
        exact digitChar_isDigit n
      · simp at h2
  · rw [if_neg h] at hc
    exact natDec_digits n c hc

theorem pad2_len (n : Nat) (h : n ≤ 99) : (pad2 n).length = 2 := by
  unfold pad2
  by_cases h10 : n < 10
  · rw [if_pos h10]
    rfl
  · rw [if_neg h10]
    have h1 : (natDec n).length ≤ 2 := natDec_len n 2 (by omega) (by omega)
    have h2 : 1 + 1 ≤ (natDec n).length := natDec_len_ge n 1 (by omega)
    omega

theorem pad2_val (n : Nat) : digitsToNat (pad2 n) 0 = n := by
  unfold pad2
  by_cases h10 : n < 10
  · rw [if_pos h10]
    show digitsToNat [digitChar n] ((0 * 10 + digitVal '0')) = n
    show digitsToNat [] (((0 * 10 + digitVal '0')) * 10 + digitVal (digitChar n)) = n
    rw [digitVal_digitChar n h10]
    show (0 * 10 + digitVal '0') * 10 + n = n
    have hz : digitVal '0' = 0 := rfl
    rw [hz]
    omega
  · rw [if_neg h10]
    exact natDec_val n

theorem pad4_digits (n : Nat) : ∀ c ∈ pad4 n, isDigitCh c = true := by
  intro c hc
  unfold pad4 at hc
  rcases List.mem_append.mp hc with h | h
  · rw [List.eq_of_mem_replicate h]
    rfl
  · exact natDec_digits n c h

theorem pad4_len (n : Nat) (h : n ≤ 9999) : (pad4 n).length = 4 := by
  unfold pad4
  rw [List.length_append, List.length_replicate]
  have h1 : (natDec n).length ≤ 4 := natDec_len n 4 (by omega) (by omega)
  omega

theorem pad4_val (n : Nat) : digitsToNat (pad4 n) 0 = n := by
  unfold pad4
  rw [digitsToNat_append, digitsToNat_replicate_zero, Nat.zero_mul, natDec_val]

/-- Reading exactly the length of a digit prefix recovers its value and
the rest of the input. -/
theorem readNDigitsAux_exact (l : List Char) :
    ∀ acc rest, (∀ c ∈ l, isDigitCh c = true) →
      readNDigitsAux l.length acc (l ++ rest) = some (digitsToNat l acc, rest) := by
  induction l with
  | nil => intro acc rest _; rfl
  | cons c t ih =>
    intro acc rest h
    show readNDigitsAux (t.length + 1) acc (c :: (t ++ rest)) = _
    unfold readNDigitsAux
    rw [if_pos (h c (by simp))]
    exact ih (acc * 10 + digitVal c) rest (fun x hx => h x (by simp [hx]))

theorem expectCh_cons (c : Char) (l : List Char) : expectCh c (c :: l) = some l := by
  show (if c = c then some l else none) = some l
  rw [if_pos rfl]

/-- `parseYMD` inverts the date half of the layout. -/
theorem parseYMD_format (y mo d : Nat) (rest : List Char)
    (hy : y ≤ 9999) (hmo : mo ≤ 99) (hd : d ≤ 99) :
    parseYMD (pad4 y ++ '-' :: (pad2 mo ++ '-' :: (pad2 d ++ rest))) = some (y, mo, d, rest) := by
  have h4 : readNDigitsAux 4 0 (pad4 y ++ '-' :: (pad2 mo ++ '-' :: (pad2 d ++ rest)))
      = some (y, '-' :: (pad2 mo ++ '-' :: (pad2 d ++ rest))) := by
    have h := readNDigitsAux_exact (pad4 y) 0 ('-' :: (pad2 mo ++ '-' :: (pad2 d ++ rest)))
      (pad4_digits y)
    rw [pad4_len y hy, pad4_val] at h
    exact h
  have hmo2 : readNDigitsAux 2 0 (pad2 mo ++ '-' :: (pad2 d ++ rest))
      = some (mo, '-' :: (pad2 d ++ rest)) := by
    have h := readNDigitsAux_exact (pad2 mo) 0 ('-' :: (pad2 d ++ rest)) (pad2_digits mo)
    rw [pad2_len mo hmo, pad2_val] at h
    exact h
  have hd2 : readNDigitsAux 2 0 (pad2 d ++ rest) = some (d, rest) := by
    have h := readNDigitsAux_exact (pad2 d) 0 rest (pad2_digits d)
    rw [pad2_len d hd, pad2_val] at h
    exact h
  simp only [parseYMD, h4, hmo2, hd2, expectCh_cons, Option.bind_eq_bind, Option.some_bind]

/-- `parseHMS` inverts the clock half of the layout. -/
theorem parseHMS_format (h mi s : Nat) (rest : List Char)
    (hh : h ≤ 99) (hmi : mi ≤ 99) (hs : s ≤ 99) :
    parseHMS (pad2 h ++ ':' :: (pad2 mi ++ ':' :: (pad2 s ++ rest))) = some (h, mi, s, rest) := by
  have hh2 : readNDigitsAux 2 0 (pad2 h ++ ':' :: (pad2 mi ++ ':' :: (pad2 s ++ rest)))
      = some (h, ':' :: (pad2 mi ++ ':' :: (pad2 s ++ rest))) := by
    have hx := readNDigitsAux_exact (pad2 h) 0 (':' :: (pad2 mi ++ ':' :: (pad2 s ++ rest)))
      (pad2_digits h)
    rw [pad2_len h hh, pad2_val] at hx
    exact hx
  have hmi2 : readNDigitsAux 2 0 (pad2 mi ++ ':' :: (pad2 s ++ rest))
      = some (mi, ':' :: (pad2 s ++ rest)) := by
    have hx := readNDigitsAux_exact (pad2 mi) 0 (':' :: (pad2 s ++ rest)) (pad2_digits mi)
    rw [pad2_len mi hmi, pad2_val] at hx
    exact hx
  have hs2 : readNDigitsAux 2 0 (pad2 s ++ rest) = some (s, rest) := by
    have hx := readNDigitsAux_exact (pad2 s) 0 rest (pad2_digits s)
    rw [pad2_len s hs, pad2_val] at hx
    exact hx
  simp only [parseHMS, hh2, hmi2, hs2, expectCh_cons, Option.bind_eq_bind, Option.some_bind]

theorem stripZeros_subset (l : List Char) : ∀ c ∈ stripZeros l, c ∈ l := by
  intro c hc
  unfold stripZeros at hc
  have h1 := List.mem_reverse.mp hc
  exact List.mem_reverse.mp (List.Sublist.mem h1 (List.dropWhile_sublist _))

theorem stripZeros_decomp (l : List Char) :
    ∃ t, l = stripZeros l ++ List.replicate t '0' := by
  refine ⟨(l.reverse.takeWhile (fun c => c = '0')).length, ?_⟩
  conv_lhs => rw [← List.reverse_reverse l,
    ← List.takeWhile_append_dropWhile (p := fun c => c = '0') (l := l.reverse)]
  rw [List.reverse_append]
  congr 1
  have hall : ∀ b ∈ (l.reverse.takeWhile (fun c => c = '0')).reverse, b = '0' := by
    intro b hb
    have hb2 := List.mem_reverse.mp hb
    have hb3 := List.mem_takeWhile_imp hb2
    simpa using hb3
  have hrep := List.eq_replicate_of_mem hall
  rw [hrep, List.length_reverse]

/-- `parseFrac` inverts the 3-digit padded, zero-stripped fraction
text. -/
theorem parseFrac_pad3 (ms : Nat) (hms : ms ≠ 0) (hle : ms ≤ 999) (c : Char) (r : List Char)
    (hc : isDigitCh c = false) :
    parseFrac ('.' :: (stripZeros (List.replicate (3 - (natDec ms).length) '0' ++ natDec ms)
      ++ c :: r)) = some (ms * 1000000, c :: r) := by
  obtain ⟨t, hdecomp⟩ :=
    stripZeros_decomp (List.replicate (3 - (natDec ms).length) '0' ++ natDec ms)
  set D := stripZeros (List.replicate (3 - (natDec ms).length) '0' ++ natDec ms) with hD
  have hplen : (List.replicate (3 - (natDec ms).length) '0' ++ natDec ms).length = 3 := by
    have h1 : (natDec ms).length ≤ 3 := natDec_len ms 3 (by omega) (by omega)
    rw [List.length_append, List.length_replicate]
    omega
  have hpval : digitsToNat (List.replicate (3 - (natDec ms).length) '0' ++ natDec ms) 0
      = ms := by
    rw [digitsToNat_append, digitsToNat_replicate_zero, Nat.zero_mul, natDec_val]
  have hpdig : ∀ x ∈ List.replicate (3 - (natDec ms).length) '0' ++ natDec ms,
      isDigitCh x = true := by
    intro x hx
    rcases List.mem_append.mp hx with h | h
    · rw [List.eq_of_mem_replicate h]
      rfl
    · exact natDec_digits ms x h
  have hDdig : ∀ x ∈ D, isDigitCh x = true := fun x hx => hpdig x (stripZeros_subset _ x hx)
  have hlen3 : D.length + t = 3 := by
    have hll := congrArg List.length hdecomp
    rw [hplen, List.length_append, List.length_replicate] at hll
    omega
  have hval : digitsToNat D 0 * 10 ^ t = ms := by
    rw [← hpval]
    conv_rhs => rw [hdecomp]
    rw [digitsToNat_append, digitsToNat_replicate_zero]
  have hDne : D ≠ [] := by
    intro he
    rw [he] at hval
    have h0 : digitsToNat [] 0 = 0 := rfl
    rw [h0] at hval
    omega
  obtain ⟨htake, hdrop⟩ := takeWhile_all_append isDigitCh D (c :: r) hDdig
    (by intro x hx; cases hx; exact hc)
  have hemp : D.isEmpty = false := by
    cases hDcase : D
    · exact absurd hDcase hDne
    · rfl
  have h9 : ¬ (9 < D.length) := by omega
  show (if (List.takeWhile isDigitCh (D ++ c :: r)).isEmpty = true then none
    else if 9 < (List.takeWhile isDigitCh (D ++ c :: r)).length then none
    else some (digitsToNat (List.takeWhile isDigitCh (D ++ c :: r)) 0
      * 10 ^ (9 - (List.takeWhile isDigitCh (D ++ c :: r)).length),
        List.dropWhile isDigitCh (D ++ c :: r))) = some (ms * 1000000, c :: r)
  rw [htake, hdrop, hemp]
  simp only [Bool.false_eq_true, if_false]
  rw [if_neg h9]
  have h96 : 9 - D.length = t + 6 := by omega
  rw [h96, pow_add, ← mul_assoc, hval]
  norm_num

/-- `parseFrac` inverts `fracMilli` for millisecond-precision
nanoseconds, when the remaining input starts with a non-digit that is not
a point. -/
theorem parseFrac_fracMilli (nanos : Nat) (c : Char) (r : List Char)
    (hlt : nanos < 1000000000) (hmod : nanos % 1000000 = 0)
    (hc : isDigitCh c = false) (hdot : c ≠ '.') :
    parseFrac (fracMilli nanos ++ c :: r) = some (nanos, c :: r) := by
  by_cases hms : nanos / 1000000 = 0
  · have hz : nanos = 0 := by omega
    have hfr : fracMilli nanos = [] := by
      simp only [fracMilli]
      rw [if_pos hms]
    rw [hfr, List.nil_append, hz]
    unfold parseFrac
    split
    · rename_i xs heq
      injection heq with h1 h2
      exact absurd h1 hdot
    · rfl
  · have hfr : fracMilli nanos ++ c :: r
        = '.' :: (stripZeros (List.replicate (3 - (natDec (nanos / 1000000)).length) '0'
          ++ natDec (nanos / 1000000)) ++ c :: r) := by
      simp only [fracMilli]
      rw [if_neg hms]
      rfl
    rw [hfr, parseFrac_pad3 (nanos / 1000000) hms (by omega) c r hc]
    have hn : nanos / 1000000 * 1000000 = nanos := by omega
    rw [hn]

theorem parseZone_plus (r : List Char) : parseZone ('+' :: r) = parseZoneHM 1 r := rfl

theorem parseZone_minus (r : List Char) : parseZone ('-' :: r) = parseZoneHM (-1) r := rfl

theorem parseZoneHM_format (sgn : Int) (h m : Nat) (hh : h ≤ 99) (hm : m ≤ 99) :
    parseZoneHM sgn (pad2 h ++ ':' :: pad2 m)
      = some (sgn * ((h : Int) * 3600 + (m : Int) * 60), []) := by
  have hh2 : readNDigitsAux 2 0 (pad2 h ++ ':' :: pad2 m) = some (h, ':' :: pad2 m) := by
    have hx := readNDigitsAux_exact (pad2 h) 0 (':' :: pad2 m) (pad2_digits h)
    rw [pad2_len h hh, pad2_val] at hx
    exact hx
  have hm2 : readNDigitsAux 2 0 (pad2 m) = some (m, []) := by
    have hx := readNDigitsAux_exact (pad2 m) 0 [] (pad2_digits m)
    rw [pad2_len m hm, pad2_val, List.append_nil] at hx
    exact hx
  simp only [parseZoneHM, hh2, hm2, expectCh_cons, Option.bind_eq_bind, Option.some_bind]

/-- `parseZone` inverts `zoneChars` for whole-minute offsets below one
day. -/
theorem parseZone_zoneChars (offset : Int) (hmod : offset % 60 = 0)
    (habs : offset.natAbs < 86400) :
    parseZone (zoneChars offset) = some (offset, []) := by
  by_cases h0 : offset = 0
  · subst h0
    rfl
  · have hdvd : (60 : Int) ∣ offset := Int.dvd_of_emod_eq_zero hmod
    have hzone : 60 * Int.tdiv offset 60 = offset := Int.mul_tdiv_cancel' hdvd
    by_cases hneg : Int.tdiv offset 60 < 0
    · have hshape : zoneChars offset
          = '-' :: (pad2 ((Int.tdiv offset 60).natAbs / 60)
            ++ ':' :: pad2 ((Int.tdiv offset 60).natAbs % 60)) := by
        simp only [zoneChars]
        rw [if_neg h0, if_pos hneg, List.append_assoc, List.append_assoc]
        rfl
      rw [hshape, parseZone_minus, parseZoneHM_format (-1) _ _ (by omega) (by omega)]
      have hv : (-1 : Int) * ((((Int.tdiv offset 60).natAbs / 60 : Nat) : Int) * 3600
          + (((Int.tdiv offset 60).natAbs % 60 : Nat) : Int) * 60) = offset := by
        omega
      rw [hv]
    · have hshape : zoneChars offset
          = '+' :: (pad2 ((Int.tdiv offset 60).natAbs / 60)
            ++ ':' :: pad2 ((Int.tdiv offset 60).natAbs % 60)) := by
        simp only [zoneChars]
        rw [if_neg h0, if_neg hneg, List.append_assoc, List.append_assoc]
        rfl
      rw [hshape, parseZone_plus, parseZoneHM_format 1 _ _ (by omega) (by omega)]
      have hv : (1 : Int) * ((((Int.tdiv offset 60).natAbs / 60 : Nat) : Int) * 3600
          + (((Int.tdiv offset 60).natAbs % 60 : Nat) : Int) * 60) = offset := by
        omega
      rw [hv]

theorem daysInMonth_le_31 (y : Int) (m : Nat) : daysInMonth y m ≤ 31 := by
  unfold daysInMonth
  split <;> first | omega | (split <;> omega)

/-- `time.Parse(RFC3339, s)` inverts the Orion marshal layout on good
times. -/
theorem parseRFC3339_formatOrionTime (t : GoTime) (h : TimeGood t) :
    parseRFC3339 (String.mk (formatOrionTime t)) = some t := by
  obtain ⟨hy0, hy1, hmo1, hmo2, hd1, hd2, hhr, hmi, hs, hns, hnsmod, hoff, hoffabs⟩ := h
  have hytn : ((t.year.toNat : Int)) = t.year := Int.toNat_of_nonneg hy0
  have hdim := daysInMonth_le_31 t.year t.month
  have hzshape : ∃ c r2, zoneChars t.offset = c :: r2 ∧ isDigitCh c = false ∧ c ≠ '.' := by
    simp only [zoneChars]
    by_cases h0 : t.offset = 0
    · rw [if_pos h0]
      exact ⟨'Z', [], rfl, rfl, by decide⟩
    · rw [if_neg h0]
      refine ⟨if Int.tdiv t.offset 60 < 0 then '-' else '+',
        pad2 ((Int.tdiv t.offset 60).natAbs / 60)
          ++ ':' :: pad2 ((Int.tdiv t.offset 60).natAbs % 60), ?_, ?_, ?_⟩
      · rw [List.append_assoc, List.append_assoc]
        rfl
      · by_cases hneg : Int.tdiv t.offset 60 < 0
        · rw [if_pos hneg]
          rfl
        · rw [if_neg hneg]
          rfl
      · by_cases hneg : Int.tdiv t.offset 60 < 0
        · rw [if_pos hneg]
          decide
        · rw [if_neg hneg]
          decide
  obtain ⟨zc, zr, hz1, hz2, hz3⟩ := hzshape
  have hshape : (String.mk (formatOrionTime t)).toList
      = pad4 t.year.toNat ++ '-' :: (pad2 t.month ++ '-' :: (pad2 t.day
        ++ 'T' :: (pad2 t.hour ++ ':' :: (pad2 t.minute ++ ':' :: (pad2 t.sec
        ++ (fracMilli t.nanos ++ zoneChars t.offset)))))) := by
    show formatOrionTime t = _
    unfold formatOrionTime
    simp only [List.append_assoc]
    rfl
  have hfrac := parseFrac_fracMilli t.nanos zc zr hns hnsmod hz2 hz3
  have hzone := parseZone_zoneChars t.offset hoff hoffabs
  rw [hz1] at hzone
  have hvalid : validDateTimeFields ((t.year.toNat : Int)) t.month t.day t.hour t.minute
      t.sec = true := by
    rw [hytn]
    simp only [validDateTimeFields, Bool.and_eq_true, decide_eq_true_eq]
    omega
  unfold parseRFC3339
  rw [hshape, parseYMD_format t.year.toNat t.month t.day _ (by omega) (by omega) (by omega)]
  simp only [Option.bind_eq_bind, Option.some_bind]
  rw [expectCh_cons]
  simp only [Option.some_bind]
  rw [parseHMS_format t.hour t.minute t.sec _ (by omega) (by omega) (by omega)]
  simp only [Option.some_bind]
  rw [hz1, hfrac]
  simp only [Option.some_bind]
  rw [hzone]
  simp only [Option.some_bind]
  simp only [List.isEmpty_nil, Bool.not_true, Bool.false_eq_true, if_false]
  rw [if_pos hvalid, hytn]

theorem objLookup_append (A B : List (String × Json)) (k : String) :
    objLookup (A ++ B) k
      = match objLookup B k with
        | some v => some v
        | none => objLookup A k := by
  induction A with
  | nil =>
    simp only [List.nil_append]
    cases h : objLookup B k
    · rfl
    · rfl
  | cons p rest ih =>
    obtain ⟨a, b⟩ := p
    have h1 : objLookup ((a, b) :: (rest ++ B)) k
        = match objLookup (rest ++ B) k with
          | some r => some r
          | none => if a = k then some b else none := rfl
    have h2 : objLookup ((a, b) :: rest) k
        = match objLookup rest k with
          | some r => some r
          | none => if a = k then some b else none := rfl
    show objLookup ((a, b) :: (rest ++ B)) k = _
    rw [h1, ih, h2]
    cases h : objLookup B k
    · rfl
    · rfl

theorem setField_append (l : List (String × Json)) (k : String) (v : Json)
    (h : ∀ p ∈ l, p.1 ≠ k) : setField l k v = l ++ [(k, v)] := by
  induction l with
  | nil => rfl
  | cons p rest ih =>
    show setField (p :: rest) k v = _
    unfold setField
    rw [if_neg (h p (by simp)), ih (fun q hq => h q (by simp [hq]))]
    rfl

theorem setAttr_append (l : List (String × Attribute)) (k : String) (v : Attribute)
    (h : ∀ p ∈ l, p.1 ≠ k) : setAttr l k v = l ++ [(k, v)] := by
  induction l with
  | nil => rfl
  | cons p rest ih =>
    show setAttr (p :: rest) k v = _
    unfold setAttr
    rw [if_neg (h p (by simp)), ih (fun q hq => h q (by simp [hq]))]
    rfl

theorem setAttr_mem (l : List (String × Attribute)) (k : String) (v : Attribute) :
    ∀ p ∈ setAttr l k v, p ∈ l ∨ p = (k, v) := by
  induction l with
  | nil =>
    intro p hp
    rcases List.mem_singleton.mp hp with h
    exact Or.inr h
  | cons q rest ih =>
    intro p hp
    unfold setAttr at hp
    by_cases hk : q.1 = k
    · rw [if_pos hk] at hp
      rcases List.mem_cons.mp hp with h | h
      · exact Or.inr h
      · exact Or.inl (by simp [h])
    · rw [if_neg hk] at hp
      rcases List.mem_cons.mp hp with h | h
      · exact Or.inl (by simp [h])
      · rcases ih p h with h2 | h2
        · exact Or.inl (by simp [h2])
        · exact Or.inr h2

theorem setAttr_keys_subset (l : List (String × Attribute)) (k : String) (v : Attribute) :
    ∀ x ∈ (setAttr l k v).map Prod.fst, x ∈ l.map Prod.fst ∨ x = k := by
  intro x hx
  rcases List.mem_map.mp hx with ⟨p, hp, hpx⟩
  rcases setAttr_mem l k v p hp with h | h
  · exact Or.inl (List.mem_map.mpr ⟨p, h, hpx⟩)
  · subst h
    exact Or.inr hpx.symm

theorem setAttr_fst_nodup (l : List (String × Attribute)) (k : String) (v : Attribute)
    (h : (l.map Prod.fst).Nodup) : ((setAttr l k v).map Prod.fst).Nodup := by
  induction l with
  | nil => simp [setAttr]
  | cons q rest ih =>
    rw [List.map_cons, List.nodup_cons] at h
    unfold setAttr
    by_cases hk : q.1 = k
    · rw [if_pos hk]
      rw [List.map_cons, List.nodup_cons]
      exact ⟨by rw [← hk]; exact h.1, h.2⟩
    · rw [if_neg hk]
      rw [List.map_cons, List.nodup_cons]
      refine ⟨?_, ih h.2⟩
      intro hmem
      rcases setAttr_keys_subset rest k v q.1 hmem with h2 | h2
      · exact h.1 h2
      · exact hk h2

theorem validName_ne_fixed (name : String) (h : IsValidAttributeName name = true) :
    name ≠ "id" ∧ name ≠ "type" := by
  constructor
  · intro he
    subst he
    exact absurd h (by decide)
  · intro he
    subst he
    exact absurd h (by decide)

theorem isF64_int (n : Int) (h : n.natAbs ≤ 2 ^ 53) : IsF64 ((n : Rat)) := by
  have habs : |(n : Rat)| < (2 : Rat) ^ (1024 : Int) := by
    have h1 : |(n : Rat)| = ((n.natAbs : Nat) : Rat) := by
      rw [← Int.cast_abs, Int.abs_eq_natAbs]
      exact Int.cast_natCast n.natAbs
    rw [h1, show ((1024 : Int)) = ((1024 : Nat) : Int) from rfl, zpow_natCast]
    have h2 : ((n.natAbs : Nat) : Rat) ≤ (((2 : Nat) ^ 53 : Nat) : Rat) := by
      exact_mod_cast h
    have h3 : (((2 : Nat) ^ 53 : Nat) : Rat) < (2 : Rat) ^ (1024 : Nat) := by
      push_cast
      have h4 : (2 : Rat) ^ (53 : Nat) < (2 : Rat) ^ (1024 : Nat) := by
        exact pow_lt_pow_right₀ (by norm_num) (by norm_num)
      exact h4
    exact lt_of_le_of_lt h2 h3
  by_cases hlt : n.natAbs < 2 ^ 53
  · refine Or.inr ⟨n, 0, ?_, hlt, by norm_num, habs⟩
    rw [zpow_zero, mul_one]
  · have he : n.natAbs = 2 ^ 53 := by omega
    rcases Int.natAbs_eq n with hn | hn
    · refine Or.inr ⟨1, 53, ?_, by norm_num, by norm_num, habs⟩
      rw [hn, he]
      push_cast
      rw [show ((53 : Int)) = ((53 : Nat) : Int) from rfl, zpow_natCast]
      norm_num
    · refine Or.inr ⟨-1, 53, ?_, by norm_num, by norm_num, habs⟩
      rw [hn, he]
      push_cast
      rw [show ((53 : Int)) = ((53 : Nat) : Int) from rfl, zpow_natCast]
      norm_num

theorem decodeGeneric_topNumOk (j : Json) (h : TopNumOk j) :
    decodeGeneric j = .ok (decodedForm j) := by
  cases j with
  | num q =>
    have h2 : f64overflow (f64round q) = false := h
    show (if f64overflow (f64round q) = true
        then Except.error (GoErr.msg "json: number out of range")
        else Except.ok (GoValue.float (f64round q)))
      = Except.ok (GoValue.float (f64round q))
    rw [h2]
    simp
  | str s => rfl
  | bool b => rfl
  | null => rfl
  | arr xs => rfl
  | obj fs => rfl

theorem marshalAttribute_shape (ty : String) (v : GoValue) (v2 : Json)
    (hty : ¬ ty = "") (hv : marshalGoValue v = .ok v2) :
    marshalAttribute ⟨ty, v, []⟩ = .ok (.obj [("type", .str ty), ("value", v2)]) := by
  unfold marshalAttribute
  dsimp only
  rw [hv]
  simp only [exceptBindOk]
  show Except.ok (Json.obj ((if ty = "" then [] else [("type", Json.str ty)])
    ++ [("value", v2)] ++ [])) = _
  rw [if_neg hty]
  rfl

theorem unmarshalAttribute_shape (ty : String) (v2 : Json) (dv : GoValue)
    (hdv : decodeGeneric v2 = .ok dv) :
    unmarshalAttribute (.obj [("type", .str ty), ("value", v2)]) = .ok ⟨ty, dv, []⟩ := by
  have h1 : unmarshalAttribute (.obj [("type", Json.str ty), ("value", v2)])
      = (decodeGeneric v2 >>= fun dv0 => Except.ok (⟨ty, dv0, []⟩ : Attribute)) := rfl
  rw [h1, hdv]
  rfl

theorem attrStep_shape (aj : Json) (a0 a2 : Attribute)
    (h1 : unmarshalAttribute aj = .ok a0) (h2 : reifyAttribute aj a0 = .ok a2) :
    attrStep aj = .ok a2 := by
  unfold attrStep
  rw [h1]
  simp only [exceptBindOk]
  exact h2

theorem reify_other (aj : Json) (a : Attribute) (h1 : ¬ a.type = DateTimeType)
    (h2 : ¬ a.type = GeoPointType) (h3 : ¬ a.type = GeoJSONType) :
    reifyAttribute aj a = .ok a := by
  unfold reifyAttribute
  rw [if_neg h1, if_neg h2, if_neg h3]

theorem reify_dateTime (aj : Json) (s : String) (t : GoTime)
    (hp : parseRFC3339 s = some t) :
    reifyAttribute aj ⟨DateTimeType, .str s, []⟩ = .ok ⟨DateTimeType, .time t, []⟩ := by
  have h : reifyAttribute aj ⟨DateTimeType, .str s, []⟩
      = (match parseRFC3339 s with
         | some t2 => Except.ok (⟨DateTimeType, GoValue.time t2, []⟩ : Attribute)
         | none => Except.ok (⟨DateTimeType, GoValue.str s, []⟩ : Attribute)) := rfl
  rw [h, hp]

theorem reify_geoPoint (aj : Json) (s : String) (p : GeoPoint)
    (hp : geoPointUnmarshal s = .ok p) :
    reifyAttribute aj ⟨GeoPointType, .str s, []⟩ = .ok ⟨GeoPointType, .geoPoint p, []⟩ := by
  have h : reifyAttribute aj ⟨GeoPointType, .str s, []⟩
      = (match geoPointUnmarshal s with
         | .ok g => Except.ok (⟨GeoPointType, GoValue.geoPoint g, []⟩ : Attribute)
         | .error e => Except.ok (⟨GeoPointType, GoValue.str s, []⟩ : Attribute)) := rfl
  rw [h, hp]

mutual
theorem jsonDeepF64_id (j : Json) (h : JsonF64Vals j) : jsonDeepF64 j = .ok j := by
  cases j with
  | num q =>
    have hq : IsF64 q := h
    show (if f64overflow (f64round q) = true
        then Except.error (GoErr.msg "json: number out of range")
        else Except.ok (Json.num (f64round q))) = Except.ok (Json.num q)
    rw [f64round_eq_self q hq, f64overflow_of_isF64 q hq]
    simp
  | arr xs =>
    have h2 : JsonF64ValsList xs := h
    unfold jsonDeepF64
    rw [jsonDeepF64List_id xs h2]
    rfl
  | obj fs =>
    have h2 : JsonF64ValsFields fs := h
    unfold jsonDeepF64
    rw [jsonDeepF64Fields_id fs h2]
    rfl
  | str s => rfl
  | bool b => rfl
  | null => rfl

theorem jsonDeepF64List_id (xs : List Json) (h : JsonF64ValsList xs) :
    jsonDeepF64List xs = .ok xs := by
  cases xs with
  | nil => rfl
  | cons x rest =>
    have h2 : JsonF64Vals x ∧ JsonF64ValsList rest := h
    unfold jsonDeepF64List
    rw [jsonDeepF64_id x h2.1]
    simp only [exceptBindOk]
    rw [jsonDeepF64List_id rest h2.2]
    rfl

theorem jsonDeepF64Fields_id (fs : List (String × Json)) (h : JsonF64ValsFields fs) :
    jsonDeepF64Fields fs = .ok fs := by
  cases fs with
  | nil => rfl
  | cons kv rest =>
    obtain ⟨k, v⟩ := kv
    have h2 : JsonF64Vals v ∧ JsonF64ValsFields rest := h
    unfold jsonDeepF64Fields
    rw [jsonDeepF64_id v h2.1]
    simp only [exceptBindOk]
    rw [jsonDeepF64Fields_id rest h2.2]
    rfl
end

theorem geometryUnmarshal_two (t : String) (c : Json)
    (hdeep : jsonDeepF64 (.obj [("type", Json.str t), ("coordinates", c)])
      = .ok (.obj [("type", Json.str t), ("coordinates", c)])) :
    geometryUnmarshal (.obj [("type", Json.str t), ("coordinates", c)])
      = (if GeoCoordTag t then
           (if geoCoordsOk t c then .ok ⟨t, c⟩
            else .error (.msg "geojson: not a valid coordinate payload"))
         else if t = "GeometryCollection" then
           .error (.msg "geojson: geometry collections are not carried by this model")
         else .ok ⟨t, .null⟩) := by
  unfold geometryUnmarshal
  rw [hdeep]
  rfl

theorem geometryUnmarshal_one (t : String) :
    geometryUnmarshal (.obj [("type", Json.str t)])
      = (if GeoCoordTag t then
           (if geoCoordsOk t Json.null then .ok ⟨t, Json.null⟩
            else .error (.msg "geojson: not a valid coordinate payload"))
         else if t = "GeometryCollection" then
           .error (.msg "geojson: geometry collections are not carried by this model")
         else .ok ⟨t, .null⟩) := rfl

/-- The geometry codec re-decodes the marshal output of every good
geometry. -/
theorem geometryUnmarshal_marshalFields (g : Geometry) (h : GeometryGood g) :
    geometryUnmarshal (.obj g.marshalFields) = .ok g := by
  rcases h with ⟨hc, hok, hf⟩ | ⟨hc, hncol, hnull⟩
  · have hmf : Geometry.marshalFields g
        = [("type", Json.str g.gtype), ("coordinates", g.coordinates)] := by
      unfold Geometry.marshalFields
      rw [if_pos hc]
    have hdeep : jsonDeepF64 (.obj [("type", Json.str g.gtype),
          ("coordinates", g.coordinates)])
        = .ok (.obj [("type", Json.str g.gtype), ("coordinates", g.coordinates)]) :=
      jsonDeepF64_id _ (show JsonF64ValsFields
        [("type", Json.str g.gtype), ("coordinates", g.coordinates)]
        from ⟨trivial, hf, trivial⟩)
    rw [hmf, geometryUnmarshal_two g.gtype g.coordinates hdeep, if_pos hc, if_pos hok]
  · have hcn : ¬ (GeoCoordTag g.gtype = true) := by
      rw [hc]
      exact Bool.false_ne_true
    have hmf : Geometry.marshalFields g = [("type", Json.str g.gtype)] := by
      unfold Geometry.marshalFields
      rw [if_neg hcn]
    rw [hmf, geometryUnmarshal_one g.gtype, if_neg hcn, if_neg hncol, ← hnull]

theorem reify_geoJSON (g : Geometry) (dv : GoValue) (h : GeometryGood g) :
    reifyAttribute (.obj [("type", Json.str GeoJSONType), ("value", .obj g.marshalFields)])
      ⟨GeoJSONType, dv, []⟩
      = .ok ⟨GeoJSONType, .geometry g, []⟩ := by
  have hstep : reifyAttribute (.obj [("type", Json.str GeoJSONType),
        ("value", .obj g.marshalFields)]) ⟨GeoJSONType, dv, []⟩
      = (geometryUnmarshal (.obj g.marshalFields)
          >>= fun g2 => Except.ok (⟨GeoJSONType, GoValue.geometry g2, []⟩ : Attribute)) := rfl
  rw [hstep, geometryUnmarshal_marshalFields g h]
  simp only [exceptBindOk]

theorem ratFloor_intCast (n : Int) : ((n : Rat)).floor = n := by
  unfold Rat.floor
  rw [Rat.den_intCast, if_pos rfl, Rat.num_intCast]

theorem ratCeil_intCast (n : Int) : ((n : Rat)).ceil = n := by
  unfold Rat.ceil
  rw [Rat.den_intCast, if_pos rfl, Rat.num_intCast]

theorem goIntOfFloat_intCast (n : Int) (h : n.natAbs ≤ 2 ^ 53) :
    goIntOfFloat ((n : Rat)) = n := by
  have hf : ((n : Rat)).floor = n := ratFloor_intCast n
  have hc : ((n : Rat)).ceil = n := ratCeil_intCast n
  have hcond : ¬ ((decide (n < -(2 ^ 63)) || decide (2 ^ 63 - 1 < n)) = true) := by
    simp only [Bool.or_eq_true, decide_eq_true_eq]
    omega
  simp only [goIntOfFloat]
  by_cases h0 : (0 : Rat) ≤ (n : Rat)
  · rw [if_pos h0, hf, if_neg hcond]
  · rw [if_neg h0, hc, if_neg hcond]

theorem decodeGeneric_isF64 (q : Rat) (hq : IsF64 q) :
    decodeGeneric (.num q) = .ok (.float q) := by
  have h1 : f64round q = q := f64round_eq_self q hq
  show (if f64overflow (f64round q) = true
      then Except.error (GoErr.msg "json: number out of range")
      else Except.ok (GoValue.float (f64round q))) = Except.ok (GoValue.float q)
  rw [h1, f64overflow_of_isF64 q hq]
  simp

/-- One good attribute survives marshal followed by the decode attribute
step, and the typed getter matching the stored value recovers it. -/
theorem attr_codec_roundtrip (name : String) (a : Attribute) (h : GoodAttr name a) :
    ∃ aj a2, marshalAttribute a = .ok aj ∧ attrStep aj = .ok a2 ∧
      AttrValueRoundtrip a2 a.value := by
  obtain ⟨hname, hmd, hval⟩ := h
  obtain ⟨ty, v, md⟩ := a
  have hmd2 : md = [] := hmd
  subst hmd2
  rcases hval with ⟨hty, s, hv⟩ | ⟨hty, s, hv⟩ | ⟨hty, q, hv, hq⟩ | ⟨hty, q, hv, hq⟩
    | ⟨hty, n, hv, hn⟩ | ⟨hty, b, hv⟩ | ⟨hty, t, hv, ht⟩ | ⟨hty, p, hv, hp1, hp2⟩
    | ⟨hty, g, hv, hg⟩ | ⟨hty, j2, hv, hj⟩
  all_goals (have hty2 : ty = _ := hty; subst hty2; have hv2 : v = _ := hv; subst hv2)
  · exact ⟨_, _, marshalAttribute_shape _ _ (.str s) (by decide) rfl,
      attrStep_shape _ _ _ (unmarshalAttribute_shape _ _ (.str s) rfl)
        (reify_other _ ⟨StringType, .str s, []⟩ (show ¬ StringType = DateTimeType by decide)
          (show ¬ StringType = GeoPointType by decide)
          (show ¬ StringType = GeoJSONType by decide)), rfl⟩
  · exact ⟨_, _, marshalAttribute_shape _ _ (.str s) (by decide) rfl,
      attrStep_shape _ _ _ (unmarshalAttribute_shape _ _ (.str s) rfl)
        (reify_other _ ⟨TextType, .str s, []⟩ (show ¬ TextType = DateTimeType by decide)
          (show ¬ TextType = GeoPointType by decide)
          (show ¬ TextType = GeoJSONType by decide)), rfl⟩
  · exact ⟨_, _, marshalAttribute_shape _ _ (.num q) (by decide) rfl,
      attrStep_shape _ _ _ (unmarshalAttribute_shape _ _ (.float q) (decodeGeneric_isF64 q hq))
        (reify_other _ ⟨NumberType, .float q, []⟩ (show ¬ NumberType = DateTimeType by decide)
          (show ¬ NumberType = GeoPointType by decide)
          (show ¬ NumberType = GeoJSONType by decide)), rfl⟩
  · exact ⟨_, _, marshalAttribute_shape _ _ (.num q) (by decide) rfl,
      attrStep_shape _ _ _ (unmarshalAttribute_shape _ _ (.float q) (decodeGeneric_isF64 q hq))
        (reify_other _ ⟨FloatType, .float q, []⟩ (show ¬ FloatType = DateTimeType by decide)
          (show ¬ FloatType = GeoPointType by decide)
          (show ¬ FloatType = GeoJSONType by decide)), rfl⟩
  · refine ⟨_, _, marshalAttribute_shape _ _ (.num (mkRat n 1)) (by decide) rfl,
      attrStep_shape _ _ _ (unmarshalAttribute_shape _ _ (.float ((n : Rat)))
        (by rw [Rat.mkRat_one]; exact decodeGeneric_isF64 _ (isF64_int n hn)))
        (reify_other _ ⟨IntegerType, .float ((n : Rat)), []⟩
          (show ¬ IntegerType = DateTimeType by decide)
          (show ¬ IntegerType = GeoPointType by decide)
          (show ¬ IntegerType = GeoJSONType by decide)), ?_⟩
    show Attribute.GetAsInteger ⟨IntegerType, .float ((n : Rat)), []⟩ = .ok n
    have hg : goIntOfFloat ((n : Rat)) = n := goIntOfFloat_intCast n hn
    have hguard : ¬ (0 < ((n : Rat)) ∧ goIntOfFloat ((n : Rat)) < 0) := by
      rintro ⟨hpos, hneg⟩
      rw [hg] at hneg
      have hpos2 : (0 : Int) < n := by exact_mod_cast hpos
      omega
    show (if (0 : Rat) < ((n : Rat)) ∧ goIntOfFloat ((n : Rat)) < 0
        then GoResult.err (.msg "integer out of range")
        else GoResult.ok (goIntOfFloat ((n : Rat)))) = GoResult.ok n
    rw [if_neg hguard, hg]
  · exact ⟨_, _, marshalAttribute_shape _ _ (.bool b) (by decide) rfl,
      attrStep_shape _ _ _ (unmarshalAttribute_shape _ _ (.bool b) rfl)
        (reify_other _ ⟨BooleanType, .bool b, []⟩ (show ¬ BooleanType = DateTimeType by decide)
          (show ¬ BooleanType = GeoPointType by decide)
          (show ¬ BooleanType = GeoJSONType by decide)), rfl⟩
  · obtain ⟨hy0, hy1, hrest⟩ := ht
    refine ⟨_, _, marshalAttribute_shape _ _ (.str (String.mk (formatOrionTime t)))
      (by decide) ?_, attrStep_shape _ _ _
        (unmarshalAttribute_shape _ _ (.str (String.mk (formatOrionTime t))) rfl)
        (reify_dateTime _ _ t (parseRFC3339_formatOrionTime t ⟨hy0, hy1, hrest⟩)), rfl⟩
    have hmt : marshalOrionTime t = .ok (formatOrionTime t) := by
      unfold marshalOrionTime
      rw [if_neg (by omega)]
    show (marshalOrionTime t).map (fun l => Json.str (String.mk l)) = _
    rw [hmt]
    rfl
  · exact ⟨_, _, marshalAttribute_shape _ _ (.str (String.mk p.marshalChars)) (by decide) rfl,
      attrStep_shape _ _ _
        (unmarshalAttribute_shape _ _ (.str (String.mk p.marshalChars)) rfl)
        (reify_geoPoint _ _ p (geoPointUnmarshal_marshal p hp1 hp2)), rfl⟩
  · exact ⟨_, _, marshalAttribute_shape _ _ (.obj g.marshalFields) (by decide) rfl,
      attrStep_shape _ _ _ (unmarshalAttribute_shape _ _
        (.json (.obj g.marshalFields)) rfl)
        (reify_geoJSON g _ hg), rfl⟩
  · exact ⟨_, _, marshalAttribute_shape _ _ j2 (by decide) rfl,
      attrStep_shape _ _ _ (unmarshalAttribute_shape _ _ (decodedForm j2)
        (decodeGeneric_topNumOk j2 hj))
        (reify_other _ ⟨StructuredValueType, decodedForm j2, []⟩
          (show ¬ StructuredValueType = DateTimeType by decide)
          (show ¬ StructuredValueType = GeoPointType by decide)
          (show ¬ StructuredValueType = GeoJSONType by decide)), rfl⟩

theorem validateAttributeName_none (name : String)
    (h : validateAttributeName name = none) : IsValidAttributeName name = true := by
  unfold validateAttributeName at h
  by_cases hb : IsValidAttributeName name
  · exact hb
  · rw [if_pos (by simp [hb])] at h
    exact absurd h (by simp)

theorem newEntity_ok (id ty : String) (e0 : Entity) (h : NewEntity id ty = .ok e0) :
    e0 = ⟨id, ty, []⟩ := by
  unfold NewEntity at h
  cases h1 : validateFieldSyn id with
  | some er =>
    rw [h1] at h
    exact absurd h (by simp)
  | none =>
    rw [h1] at h
    cases h2 : validateFieldSyn ty with
    | some er =>
      rw [h2] at h
      exact absurd h (by simp)
    | none =>
      rw [h2] at h
      injection h with he
      exact he.symm

/-- A successful good setter call writes one good attribute and changes
nothing else. -/
theorem applyOp_success (e : Entity) (op : SetterOp) (hop : OpGood op)
    (hsucc : (applyOp e op).2 = none) :
    ∃ nm att, GoodAttr nm att ∧ nm = op.opName ∧
      (applyOp e op).1 = { e with attributes := setAttr e.attributes nm att } := by
  cases op with
  | str name v =>
    unfold applyOp Entity.SetAttributeAsString at hsucc ⊢
    dsimp only at hsucc ⊢
    cases hv : validateAttributeName name with
    | some er =>
      simp [hv] at hsucc
    | none =>
      cases hvs : IsValidString v with
      | false =>
        simp [hv, hvs] at hsucc
      | true =>
        refine ⟨name, NewAttribute StringType (.str v),
          ⟨validateAttributeName_none name hv, rfl, Or.inl ⟨rfl, v, rfl⟩⟩, rfl, ?_⟩
        simp [hvs]
  | text name v =>
    unfold applyOp Entity.SetAttributeAsText at hsucc ⊢
    dsimp only at hsucc ⊢
    cases hv : validateAttributeName name with
    | some er =>
      simp [hv] at hsucc
    | none =>
      cases hvs : IsValidString v with
      | false =>
        simp [hv, hvs] at hsucc
      | true =>
        refine ⟨name, NewAttribute TextType (.str v),
          ⟨validateAttributeName_none name hv, rfl, Or.inr (Or.inl ⟨rfl, v, rfl⟩)⟩, rfl, ?_⟩
        simp [hvs]
  | number name v =>
    unfold applyOp Entity.SetAttributeAsNumber at hsucc ⊢
    dsimp only at hsucc ⊢
    cases hv : validateAttributeName name with
    | some er =>
      simp [hv] at hsucc
    | none =>
      exact ⟨name, NewAttribute NumberType (.float v),
        ⟨validateAttributeName_none name hv, rfl,
          Or.inr (Or.inr (Or.inl ⟨rfl, v, rfl, hop⟩))⟩, rfl, rfl⟩
  | int name v =>
    unfold applyOp Entity.SetAttributeAsInteger at hsucc ⊢
    dsimp only at hsucc ⊢
    cases hv : validateAttributeName name with
    | some er =>
      simp [hv] at hsucc
    | none =>
      exact ⟨name, NewAttribute IntegerType (.int v),
        ⟨validateAttributeName_none name hv, rfl,
          Or.inr (Or.inr (Or.inr (Or.inr (Or.inl ⟨rfl, v, rfl, hop⟩))))⟩, rfl, rfl⟩
  | float name v =>
    unfold applyOp Entity.SetAttributeAsFloat at hsucc ⊢
    dsimp only at hsucc ⊢
    cases hv : validateAttributeName name with
    | some er =>
      simp [hv] at hsucc
    | none =>
      exact ⟨name, NewAttribute FloatType (.float v),
        ⟨validateAttributeName_none name hv, rfl,
          Or.inr (Or.inr (Or.inr (Or.inl ⟨rfl, v, rfl, hop⟩)))⟩, rfl, rfl⟩
  | bool name v =>
    unfold applyOp Entity.SetAttributeAsBoolean at hsucc ⊢
    dsimp only at hsucc ⊢
    cases hv : validateAttributeName name with
    | some er =>
      simp [hv] at hsucc
    | none =>
      exact ⟨name, NewAttribute BooleanType (.bool v),
        ⟨validateAttributeName_none name hv, rfl,
          Or.inr (Or.inr (Or.inr (Or.inr (Or.inr (Or.inl ⟨rfl, v, rfl⟩)))))⟩, rfl, rfl⟩
  | dateTime name v =>
    unfold applyOp Entity.SetAttributeAsDateTime at hsucc ⊢
    dsimp only at hsucc ⊢
    cases hv : validateAttributeName name with
    | some er =>
      simp [hv] at hsucc
    | none =>
      exact ⟨name, NewAttribute DateTimeType (.orionTime v),
        ⟨validateAttributeName_none name hv, rfl,
          Or.inr (Or.inr (Or.inr (Or.inr (Or.inr (Or.inr (Or.inl ⟨rfl, v, rfl, hop⟩))))))⟩,
        rfl, rfl⟩
  | geoPoint name v =>
    unfold applyOp Entity.SetAttributeAsGeoPoint at hsucc ⊢
    dsimp only at hsucc ⊢
    cases hv : validateAttributeName name with
    | some er =>
      simp [hv] at hsucc
    | none =>
      exact ⟨name, NewAttribute GeoPointType (.geoPoint v),
        ⟨validateAttributeName_none name hv, rfl,
          Or.inr (Or.inr (Or.inr (Or.inr (Or.inr (Or.inr (Or.inr (Or.inl
            ⟨rfl, v, rfl, hop.1, hop.2⟩)))))))⟩, rfl, rfl⟩
  | geoJSON name v =>
    unfold applyOp Entity.SetAttributeAsGeoJSON at hsucc ⊢
    dsimp only at hsucc ⊢
    cases hv : validateAttributeName name with
    | some er =>
      simp [hv] at hsucc
    | none =>
      exact ⟨name, NewAttribute GeoJSONType (.geometry v),
        ⟨validateAttributeName_none name hv, rfl,
          Or.inr (Or.inr (Or.inr (Or.inr (Or.inr (Or.inr (Or.inr (Or.inr (Or.inl
            ⟨rfl, v, rfl, hop⟩))))))))⟩, rfl, rfl⟩
  | structured name v =>
    unfold applyOp Entity.SetAttributeAsStructuredValue at hsucc ⊢
    dsimp only at hsucc ⊢
    cases hv : validateAttributeName name with
    | some er =>
      simp [hv] at hsucc
    | none =>
      exact ⟨name, NewAttribute StructuredValueType v,
        ⟨validateAttributeName_none name hv, rfl,
          Or.inr (Or.inr (Or.inr (Or.inr (Or.inr (Or.inr (Or.inr (Or.inr (Or.inr
            ⟨rfl, hop⟩))))))))⟩, rfl, rfl⟩

/-- Invariant of a successful run of good setter calls: id and type are
untouched, every stored attribute is good, attribute keys never
case-fold to the fixed field names, and attribute keys stay unique. -/
theorem applyOps_invariant (ops : List SetterOp) :
    ∀ e : Entity, (∀ op ∈ ops, OpGood op) →
      (∀ op ∈ ops, eqFoldName op.opName "id" = false ∧
        eqFoldName op.opName "type" = false) →
      (applyOps e ops).2 = true →
      (∀ p ∈ e.attributes, GoodAttr p.1 p.2) →
      (∀ p ∈ e.attributes, eqFoldName p.1 "id" = false ∧ eqFoldName p.1 "type" = false) →
      ((e.attributes.map Prod.fst).Nodup) →
      (applyOps e ops).1.id = e.id ∧ (applyOps e ops).1.type = e.type ∧
      (∀ p ∈ (applyOps e ops).1.attributes, GoodAttr p.1 p.2) ∧
      (∀ p ∈ (applyOps e ops).1.attributes,
        eqFoldName p.1 "id" = false ∧ eqFoldName p.1 "type" = false) ∧
      (((applyOps e ops).1.attributes.map Prod.fst).Nodup) := by
  induction ops with
  | nil =>
    intro e _ _ _ hgood hfold hnodup
    exact ⟨rfl, rfl, hgood, hfold, hnodup⟩
  | cons op rest ih =>
    intro e hops hopsf hsucc hgood hfold hnodup
    have hsucc2 : ((applyOps (applyOp e op).1 rest).2 && (applyOp e op).2.isNone) = true :=
      hsucc
    rw [Bool.and_eq_true] at hsucc2
    obtain ⟨hrest_succ, hop_succ⟩ := hsucc2
    have hop_none : (applyOp e op).2 = none := Option.isNone_iff_eq_none.mp hop_succ
    obtain ⟨nm, att, hga, hnm, he2⟩ := applyOp_success e op (hops op (by simp)) hop_none
    have hgood2 : ∀ p ∈ (applyOp e op).1.attributes, GoodAttr p.1 p.2 := by
      rw [he2]
      intro p hp
      rcases setAttr_mem _ _ _ p hp with h | h
      · exact hgood p h
      · rw [h]
        exact hga
    have hfold2 : ∀ p ∈ (applyOp e op).1.attributes,
        eqFoldName p.1 "id" = false ∧ eqFoldName p.1 "type" = false := by
      rw [he2]
      intro p hp
      rcases setAttr_mem _ _ _ p hp with h | h
      · exact hfold p h
      · rw [h]
        show eqFoldName nm "id" = false ∧ eqFoldName nm "type" = false
        rw [hnm]
        exact hopsf op (by simp)
    have hnodup2 : (((applyOp e op).1.attributes).map Prod.fst).Nodup := by
      rw [he2]
      exact setAttr_fst_nodup _ _ _ hnodup
    have hid2 : (applyOp e op).1.id = e.id := by rw [he2]
    have hty2 : (applyOp e op).1.type = e.type := by rw [he2]
    obtain ⟨h1, h2, h3, h4, h5⟩ := ih (applyOp e op).1 (fun o ho => hops o (by simp [ho]))
      (fun o ho => hopsf o (by simp [ho])) hrest_succ hgood2 hfold2 hnodup2
    exact ⟨h1.trans hid2, h2.trans hty2, h3, h4, h5⟩

/-- Marshal of a list of good attributes: names are kept, and every
marshaled document passes the decode attribute step back to a value the
matching getter recovers. -/
theorem marshalAttrList_good (attrs : List (String × Attribute))
    (h : ∀ p ∈ attrs, GoodAttr p.1 p.2) :
    ∃ fields, marshalAttrList attrs = .ok fields ∧
      fields.map Prod.fst = attrs.map Prod.fst ∧
      List.Forall₂ (fun (p : String × Attribute) (q : String × Json) =>
        q.1 = p.1 ∧ ∃ a2, attrStep q.2 = .ok a2 ∧ AttrValueRoundtrip a2 p.2.value)
        attrs fields := by
  induction attrs with
  | nil => exact ⟨[], rfl, rfl, List.Forall₂.nil⟩
  | cons p rest ih =>
    obtain ⟨k, a⟩ := p
    obtain ⟨fields, hf, hkeys, hrel⟩ := ih (fun q hq => h q (by simp [hq]))
    obtain ⟨aj, a2, hm, hs, hrt⟩ := attr_codec_roundtrip k a (h (k, a) (by simp))
    refine ⟨(k, aj) :: fields, ?_, ?_, ?_⟩
    · have hstep : marshalAttrList ((k, a) :: rest)
          = (marshalAttribute a >>= fun j =>
              marshalAttrList rest >>= fun r => Except.ok ((k, j) :: r)) := rfl
      rw [hstep, hm]
      simp only [exceptBindOk]
      rw [hf]
      simp only [exceptBindOk]
    · simp [hkeys]
    · exact List.Forall₂.cons ⟨rfl, a2, hs, hrt⟩ hrel

/-- The decode attribute loop on fields that all pass their step, with
fresh distinct keys, appends the decoded attributes to the
accumulator. -/
theorem decodeAttrsLoop_good (fields : List (String × Json)) :
    ∀ (acc : List (String × Attribute)),
      (∀ q ∈ fields, ∃ a2, attrStep (q : String × Json).2 = .ok a2) →
      (∀ q ∈ fields, ∀ r ∈ acc, (r : String × Attribute).1 ≠ (q : String × Json).1) →
      ((fields.map Prod.fst).Nodup) →
      ∃ out, decodeAttrsLoop fields acc = .ok (acc ++ out) ∧
        List.Forall₂ (fun (q : String × Json) (r : String × Attribute) =>
          r.1 = q.1 ∧ attrStep q.2 = .ok r.2) fields out := by
  induction fields with
  | nil =>
    intro acc _ _ _
    exact ⟨[], by simp [decodeAttrsLoop], List.Forall₂.nil⟩
  | cons q rest ih =>
    intro acc hok hfresh hnodup
    obtain ⟨nm, aj⟩ := q
    obtain ⟨a2, hstep⟩ := hok (nm, aj) (by simp)
    have hset : setAttr acc nm a2 = acc ++ [(nm, a2)] :=
      setAttr_append acc nm a2 (fun r hr => hfresh (nm, aj) (by simp) r hr)
    have hloop : decodeAttrsLoop ((nm, aj) :: rest) acc
        = (attrStep aj >>= fun a => decodeAttrsLoop rest (setAttr acc nm a)) := rfl
    rw [List.map_cons, List.nodup_cons] at hnodup
    obtain ⟨out, hout, hrel⟩ := ih (acc ++ [(nm, a2)])
      (fun q2 hq2 => hok q2 (by simp [hq2]))
      (by
        intro q2 hq2 r hr
        rcases List.mem_append.mp hr with h | h
        · exact hfresh q2 (by simp [hq2]) r h
        · rw [List.mem_singleton.mp h]
          intro he
          exact hnodup.1 (he ▸ List.mem_map.mpr ⟨q2, hq2, rfl⟩))
      hnodup.2
    refine ⟨(nm, a2) :: out, ?_, List.Forall₂.cons ⟨rfl, hstep⟩ hrel⟩
    rw [hloop, hstep]
    simp only [exceptBindOk]
    rw [hset, hout, List.append_assoc]
    rfl

theorem forall2_decode_keys (fields : List (String × Json))
    (out : List (String × Attribute))
    (h : List.Forall₂ (fun (q : String × Json) (r : String × Attribute) =>
      r.1 = q.1 ∧ attrStep q.2 = .ok r.2) fields out) :
    out.map Prod.fst = fields.map Prod.fst := by
  induction h with
  | nil => rfl
  | cons h1 h2 ih => simp [ih, h1.1]

theorem forall2_compose (attrs : List (String × Attribute)) (fields : List (String × Json))
    (out : List (String × Attribute))
    (h1 : List.Forall₂ (fun (p : String × Attribute) (q : String × Json) =>
      q.1 = p.1 ∧ ∃ a2, attrStep q.2 = .ok a2 ∧ AttrValueRoundtrip a2 p.2.value)
      attrs fields)
    (h2 : List.Forall₂ (fun (q : String × Json) (r : String × Attribute) =>
      r.1 = q.1 ∧ attrStep q.2 = .ok r.2) fields out) :
    List.Forall₂ (fun (p r : String × Attribute) =>
      r.1 = p.1 ∧ AttrValueRoundtrip r.2 p.2.value) attrs out := by
  induction h1 generalizing out with
  | nil =>
    cases h2
    exact List.Forall₂.nil
  | cons hpq hrest ih =>
    cases h2 with
    | cons hqr hrest2 =>
      refine List.Forall₂.cons ⟨hqr.1.trans hpq.1, ?_⟩ (ih _ hrest2)
      obtain ⟨a2, hstep, hrt⟩ := hpq.2
      rw [hqr.2] at hstep
      injection hstep with he
      rw [he]
      exact hrt

/-- Entity marshal on good attributes: the document is the attribute map
with the fixed fields appended. -/
theorem entityMarshal_good (e : Entity) (hgood : ∀ p ∈ e.attributes, GoodAttr p.1 p.2) :
    ∃ fields, Entity.MarshalJSON e
        = .ok (.obj (fields ++ [("id", .str e.id), ("type", .str e.type)])) ∧
      fields.map Prod.fst = e.attributes.map Prod.fst ∧
      (∀ p ∈ fields, (p : String × Json).1 ≠ "id" ∧ p.1 ≠ "type") ∧
      List.Forall₂ (fun (p : String × Attribute) (q : String × Json) =>
        q.1 = p.1 ∧ ∃ a2, attrStep q.2 = .ok a2 ∧ AttrValueRoundtrip a2 p.2.value)
        e.attributes fields := by
  obtain ⟨fields, hf, hkeys, hrel⟩ := marshalAttrList_good e.attributes hgood
  have hne : ∀ p ∈ fields, (p : String × Json).1 ≠ "id" ∧ p.1 ≠ "type" := by
    intro p hp
    have h1 : p.1 ∈ e.attributes.map Prod.fst := by
      rw [← hkeys]
      exact List.mem_map.mpr ⟨p, hp, rfl⟩
    obtain ⟨q, hq, hqe⟩ := List.mem_map.mp h1
    have hv := validName_ne_fixed q.1 (hgood q hq).1
    rw [← hqe]
    exact hv
  have hs1 : setField fields "id" (.str e.id) = fields ++ [("id", .str e.id)] :=
    setField_append _ _ _ (fun p hp => (hne p hp).1)
  have hs2 : setField (fields ++ [("id", .str e.id)]) "type" (.str e.type)
      = fields ++ [("id", .str e.id), ("type", .str e.type)] := by
    rw [setField_append]
    · rw [List.append_assoc]
      rfl
    · intro p hp
      rcases List.mem_append.mp hp with h | h
      · exact (hne p h).2
      · rw [List.mem_singleton.mp h]
        exact (show ("id" : String) ≠ "type" by decide)
  refine ⟨fields, ?_, hkeys, hne, hrel⟩
  unfold Entity.MarshalJSON
  rw [hf]
  simp only [exceptBindOk]
  rw [hs1, hs2]

theorem eqFoldName_refl (k : String) : eqFoldName k k = true := by
  unfold eqFoldName
  exact beq_self_eq_true _

theorem ne_of_foldFree (k tag : String) (h : eqFoldName k tag = false) : k ≠ tag := by
  intro he
  rw [he, eqFoldName_refl] at h
  simp at h

/-- The fold-matching string reader skips every prefix whose keys do not
case-fold to the target tag. -/
theorem readStrFieldFold_skip (l r : List (String × Json)) (tag acc : String)
    (h : ∀ p ∈ l, eqFoldName (p : String × Json).1 tag = false) :
    readStrFieldFold (l ++ r) tag acc = readStrFieldFold r tag acc := by
  induction l with
  | nil => rfl
  | cons p rest ih =>
    obtain ⟨k, v⟩ := p
    have hk : eqFoldName k tag = false := h (k, v) (by simp)
    have hstep : readStrFieldFold (((k, v) :: rest) ++ r) tag acc
        = readStrFieldFold (rest ++ r) tag acc := by
      rw [List.cons_append]
      conv_lhs => unfold readStrFieldFold
      rw [hk]
      simp
    rw [hstep]
    exact ih (fun p hp => h p (by simp [hp]))

theorem readStrFieldFold_id_tail (I T : String) :
    readStrFieldFold [("id", Json.str I), ("type", Json.str T)] "id" "" = .ok I := rfl

theorem readStrFieldFold_type_tail (I T : String) :
    readStrFieldFold [("id", Json.str I), ("type", Json.str T)] "type" "" = .ok T := rfl

/-- Entity unmarshal of an attribute map with the fixed fields appended:
the fixed fields are read back, the attributes all pass their decode
step.  The attribute keys may not case-fold to `id` or `type`, since the
first decode pass matches the fixed fields case-insensitively. -/
theorem entityUnmarshal_good (I T : String) (fields : List (String × Json))
    (hne : ∀ p ∈ fields, eqFoldName (p : String × Json).1 "id" = false ∧
      eqFoldName p.1 "type" = false)
    (hok : ∀ q ∈ fields, ∃ a2, attrStep (q : String × Json).2 = .ok a2)
    (hnodup : (fields.map Prod.fst).Nodup) :
    ∃ out, Entity.UnmarshalJSON (.obj (fields ++ [("id", .str I), ("type", .str T)]))
        = .ok ⟨I, T, out⟩ ∧
      List.Forall₂ (fun (q : String × Json) (r : String × Attribute) =>
        r.1 = q.1 ∧ attrStep q.2 = .ok r.2) fields out := by
  have hid : readStrFieldFold (fields ++ [("id", Json.str I), ("type", Json.str T)]) "id" ""
      = .ok I := by
    rw [readStrFieldFold_skip fields _ "id" "" (fun p hp => (hne p hp).1)]
    exact readStrFieldFold_id_tail I T
  have hty : readStrFieldFold (fields ++ [("id", Json.str I), ("type", Json.str T)]) "type" ""
      = .ok T := by
    rw [readStrFieldFold_skip fields _ "type" "" (fun p hp => (hne p hp).2)]
    exact readStrFieldFold_type_tail I T
  have hfilter : (fields ++ [("id", Json.str I), ("type", Json.str T)]).filter
      (fun kv => !(kv.1 == "id") && !(kv.1 == "type")) = fields := by
    rw [List.filter_append]
    have h1 : fields.filter (fun kv => !(kv.1 == "id") && !(kv.1 == "type")) = fields := by
      rw [List.filter_eq_self]
      intro p hp
      have ha := ne_of_foldFree p.1 "id" (hne p hp).1
      have hb := ne_of_foldFree p.1 "type" (hne p hp).2
      simp [ha, hb]
    have h2 : ([("id", Json.str I), ("type", Json.str T)]).filter
        (fun kv => !(kv.1 == "id") && !(kv.1 == "type")) = [] := rfl
    rw [h1, h2, List.append_nil]
  obtain ⟨out, hloop, hrel⟩ := decodeAttrsLoop_good fields [] hok
    (by intro q _ r hr; cases hr) hnodup
  refine ⟨out, ?_, hrel⟩
  have hun : Entity.UnmarshalJSON (.obj (fields ++ [("id", Json.str I), ("type", Json.str T)]))
      = (readStrFieldFold (fields ++ [("id", Json.str I), ("type", Json.str T)]) "id" ""
          >>= fun id =>
            readStrFieldFold (fields ++ [("id", Json.str I), ("type", Json.str T)]) "type" ""
          >>= fun typ =>
            decodeAttrsLoop ((fields ++ [("id", Json.str I), ("type", Json.str T)]).filter
              (fun kv => !(kv.1 == "id") && !(kv.1 == "type"))) []
          >>= fun attrs => Except.ok ⟨id, typ, attrs⟩) := rfl
  rw [hun, hid]
  simp only [exceptBindOk]
  rw [hty]
  simp only [exceptBindOk]
  rw [hfilter, hloop]
  simp only [exceptBindOk]
  rw [List.nil_append]

theorem forall2_attrStep_ok (attrs : List (String × Attribute))
    (fields : List (String × Json))
    (h : List.Forall₂ (fun (p : String × Attribute) (q : String × Json) =>
      q.1 = p.1 ∧ ∃ a2, attrStep q.2 = .ok a2 ∧ AttrValueRoundtrip a2 p.2.value)
      attrs fields) :
    ∀ q ∈ fields, ∃ a2, attrStep (q : String × Json).2 = .ok a2 := by
  induction h with
  | nil =>
    intro q hq
    cases hq
  | cons h1 h2 ih =>
    intro q hq
    rcases List.mem_cons.mp hq with he | hm
    · subst he
      obtain ⟨_, a2, hs, _⟩ := h1
      exact ⟨a2, hs⟩
    · exact ih q hm

/-- If some field of the dynamic map fails its attribute step, the whole
attribute loop fails. -/
theorem decodeAttrsLoop_error_of_mem :
    ∀ (fields : List (String × Json)) (acc : List (String × Attribute)) (name : String) (aj : Json),
      (name, aj) ∈ fields → (∃ er0, attrStep aj = .error er0) →
      ∃ er, decodeAttrsLoop fields acc = .error er := by
  intro fields
  induction fields with
  | nil => intro acc name aj h; exact absurd h (List.not_mem_nil _)
  | cons kv rest ih =>
    intro acc name aj hmem hstep
    obtain ⟨k0, aj0⟩ := kv
    rcases List.mem_cons.mp hmem with heq | htl
    · cases heq
      obtain ⟨er0, he⟩ := hstep
      exact ⟨er0, by unfold decodeAttrsLoop; simp [he]⟩
    · cases hstep0 : attrStep aj0 with
      | error e => exact ⟨e, by unfold decodeAttrsLoop; simp [hstep0]⟩
      | ok a =>
        obtain ⟨er, hl⟩ := ih (setAttr acc k0 a) name aj htl hstep
        exact ⟨er, by unfold decodeAttrsLoop; simp [hstep0, hl]⟩

/-- If a dynamic field of the document fails its attribute step, decoding
the whole entity fails. -/
theorem unmarshal_error_of_bad_attr
    (fields afs : List (String × Json)) (name : String)
    (hmem : (name, .obj afs) ∈ fields) (hid : name ≠ "id") (htyp : name ≠ "type")
    (hstep : ∃ er0, attrStep (.obj afs) = .error er0) :
    ∃ er, Entity.UnmarshalJSON (.obj fields) = .error er := by
  unfold Entity.UnmarshalJSON
  cases hid0 : readStrFieldFold fields "id" "" with
  | error e => exact ⟨e, by simp [hid0]⟩
  | ok idv =>
    cases htv : readStrFieldFold fields "type" "" with
    | error e => exact ⟨e, by simp [hid0, htv]⟩
    | ok tv =>
      have hmem2 : (name, Json.obj afs) ∈
          fields.filter (fun kv => !(kv.1 == "id") && !(kv.1 == "type")) :=
        List.mem_filter.mpr ⟨hmem, by simp [hid, htyp]⟩
      obtain ⟨er, hl⟩ := decodeAttrsLoop_error_of_mem _ [] name (.obj afs) hmem2 hstep
      exact ⟨er, by simp [hid0, htv, hl]⟩

/-- Generic decode never turns a non-string document into a Go string. -/
theorem decodeGeneric_preserves_nonstring (v : Json) (gv : GoValue)
    (hok : decodeGeneric v = .ok gv) (hns : ∀ s, v ≠ .str s) : ∀ s, gv ≠ .str s := by
  cases v with
  | str s => exact absurd rfl (hns s)
  | bool b => cases hok; simp
  | null => cases hok; simp
  | num q =>
    dsimp only [decodeGeneric] at hok
    split at hok
    · cases hok
    · cases hok; simp
  | arr xs => cases hok; simp
  | obj fs => cases hok; simp

/-- A `DateTime` or `geo:point` attribute whose `value` is not a JSON
string always fails the attribute step. -/
theorem attrStep_nonstring_error (afs : List (String × Json)) (tag : String) (v : Json)
    (htag : objLookup afs "type" = some (.str tag))
    (hv : objLookup afs "value" = some v) (hns : ∀ s, v ≠ .str s)
    (htg : tag = DateTimeType ∨ tag = GeoPointType) :
    ∃ er0, attrStep (.obj afs) = .error er0 := by
  have ht0 : readStrField afs "type" = .ok tag := by unfold readStrField; rw [htag]
  unfold attrStep unmarshalAttribute
  dsimp only
  rw [ht0, hv]
  cases hdg : decodeGeneric v with
  | error e => exact ⟨e, by simp [hdg]⟩
  | ok gv =>
    have hgns := decodeGeneric_preserves_nonstring v gv hdg hns
    have hrey : ∀ md, ∃ er, reifyAttribute (.obj afs) ⟨tag, gv, md⟩ = .error er := by
      intro md
      rcases htg with h | h <;> subst h
      · refine ⟨.msg "Invalid DateTimeType value", ?_⟩
        unfold reifyAttribute
        cases hgv : gv with
        | str s => exact absurd hgv (hgns s)
        | _ => rfl
      · refine ⟨.msg "Invalid geo:point value", ?_⟩
        unfold reifyAttribute
        cases hgv : gv with
        | str s => exact absurd hgv (hgns s)
        | _ => rfl
    cases hmd : objLookup afs "metadata" with
    | none =>
      obtain ⟨er, hr⟩ := hrey []
      exact ⟨er, by simp [hdg, hmd, hr]⟩
    | some mj =>
      cases mj with
      | obj mfs =>
        cases hml : decodeMetadataList mfs with
        | error e => exact ⟨e, by simp [hdg, hmd, hml]⟩
        | ok md =>
          obtain ⟨er, hr⟩ := hrey md
          exact ⟨er, by simp [hdg, hmd, hml, hr]⟩
      | null =>
        obtain ⟨er, hr⟩ := hrey []
        exact ⟨er, by simp [hdg, hmd, hr]⟩
      | bool b => exact ⟨.msg "json: cannot unmarshal value into field metadata", by simp [hdg, hmd]⟩
      | num q => exact ⟨.msg "json: cannot unmarshal value into field metadata", by simp [hdg, hmd]⟩
      | str s => exact ⟨.msg "json: cannot unmarshal value into field metadata", by simp [hdg, hmd]⟩
      | arr xs => exact ⟨.msg "json: cannot unmarshal value into field metadata", by simp [hdg, hmd]⟩

/-- C3 counterexample: a document whose DateTime attribute value is the
unparseable string "notadate" decodes successfully — the raw string is
retained and the failure only surfaces in the typed getter — refuting
that a malformed timestamp string fails the whole entity decode. -/
theorem c3_malformed_timestamp_decodes :
    parseRFC3339 "notadate" = none ∧
    Entity.UnmarshalJSON (.obj [("id", .str "R"), ("type", .str "Room"),
        ("t", .obj [("type", .str DateTimeType), ("value", .str "notadate")])])
      = .ok ⟨"R", "Room", [("t", ⟨DateTimeType, .str "notadate", []⟩)]⟩ ∧
    Entity.GetAttributeAsDateTime
        ⟨"R", "Room", [("t", ⟨DateTimeType, .str "notadate", []⟩)]⟩ "t"
      = .err (.msg "Attribute with date time type does not contain time value") :=
  ⟨rfl, rfl, rfl⟩

/-- C3 amended: entity decode is eager only about the JSON shape of a
DateTime attribute: a value that is not a string fails the whole decode,
while a string that is not a parseable RFC3339 timestamp is retained
verbatim (the parse error is discarded) and the failure is deferred to
the typed getter. -/
theorem c3_datetime_eager_shape_lazy_parse :
    (∀ (aJson : Json) (a : Attribute), a.type = DateTimeType →
      ((∀ s, a.value ≠ .str s) →
        reifyAttribute aJson a = .error (.msg "Invalid DateTimeType value")) ∧
      (∀ s, a.value = .str s → parseRFC3339 s = none → reifyAttribute aJson a = .ok a) ∧
      (∀ s t, a.value = .str s → parseRFC3339 s = some t →
        reifyAttribute aJson a = .ok { a with value := .time t })) ∧
    (∀ s : String, Attribute.GetAsDateTime ⟨DateTimeType, .str s, []⟩
      = .err (.msg "Attribute with date time type does not contain time value")) ∧
    (∀ (fields afs : List (String × Json)) (name : String) (v : Json),
      (name, .obj afs) ∈ fields → name ≠ "id" → name ≠ "type" →
      objLookup afs "type" = some (.str DateTimeType) →
      objLookup afs "value" = some v → (∀ s, v ≠ .str s) →
      ∃ er, Entity.UnmarshalJSON (.obj fields) = .error er) := by
  refine ⟨?_, fun s => rfl, ?_⟩
  · intro aJson a ht
    obtain ⟨t0, v0, m0⟩ := a
    dsimp only at ht
    subst ht
    refine ⟨?_, ?_, ?_⟩
    · intro hns
      unfold reifyAttribute
      cases hv : v0 with
      | str s => exact absurd hv (hns s)
      | _ => rfl
    · intro s hvs hp
      subst hvs
      simp [reifyAttribute, hp]
    · intro s t hvs hp
      subst hvs
      simp [reifyAttribute, hp]
  · intro fields afs name v hmem hid htyp hty hval hns
    exact unmarshal_error_of_bad_attr fields afs name hmem hid htyp
      (attrStep_nonstring_error afs DateTimeType v hty hval hns (Or.inl rfl))

/-- C3 witness: the amended theorem applied at a concrete malformed
timestamp string and at a concrete non-string DateTime value. -/
theorem c3_datetime_eager_shape_lazy_parse_witness :
    (reifyAttribute .null ⟨DateTimeType, .str "notadate", []⟩
      = .ok ⟨DateTimeType, .str "notadate", []⟩) ∧
    (∃ er, Entity.UnmarshalJSON
      (.obj [("t", .obj [("type", .str DateTimeType), ("value", .num 5)])]) = .error er) :=
  ⟨(c3_datetime_eager_shape_lazy_parse.1 .null ⟨DateTimeType, .str "notadate", []⟩ rfl).2.1
      "notadate" rfl rfl,
   c3_datetime_eager_shape_lazy_parse.2.2
      [("t", .obj [("type", .str DateTimeType), ("value", .num 5)])]
      [("type", .str DateTimeType), ("value", .num 5)] "t" (.num 5)
      (List.Mem.head _) (by decide) (by decide) rfl rfl (fun s => by simp)⟩

/-- C9: the geo-point codec: setting `location` to GeoPoint{4.1, 2.3},
encoding and decoding yields a `geo:point` attribute whose GetAsGeoPoint
value is {4.1, 2.3} again, the encoded value being the single string
"4.1, 2.3" (4.1 and 2.3 denote the float64 values of those literals);
and decoding fails for every document in which a geo:point attribute
value is a JSON array rather than a string. -/
theorem c9_geo_point_codec :
    ((sampleEntity.SetAttributeAsGeoPoint "location"
        ⟨f64round (mkRat 41 10), f64round (mkRat 23 10)⟩).2 = none) ∧
    (Entity.MarshalJSON (sampleEntity.SetAttributeAsGeoPoint "location"
        ⟨f64round (mkRat 41 10), f64round (mkRat 23 10)⟩).1
      = .ok (.obj [("location", .obj [("type", .str GeoPointType), ("value", .str "4.1, 2.3")]),
          ("id", .str "Room1"), ("type", .str "Room")])) ∧
    (Entity.UnmarshalJSON
        (.obj [("location", .obj [("type", .str GeoPointType), ("value", .str "4.1, 2.3")]),
          ("id", .str "Room1"), ("type", .str "Room")])
      = .ok ⟨"Room1", "Room", [("location",
          ⟨GeoPointType, .geoPoint ⟨f64round (mkRat 41 10), f64round (mkRat 23 10)⟩, []⟩)]⟩) ∧
    (Entity.GetAttributeAsGeoPoint
        ⟨"Room1", "Room", [("location",
          ⟨GeoPointType, .geoPoint ⟨f64round (mkRat 41 10), f64round (mkRat 23 10)⟩, []⟩)]⟩
        "location"
      = .ok ⟨f64round (mkRat 41 10), f64round (mkRat 23 10)⟩) ∧
    (∀ (fields afs : List (String × Json)) (name : String) (xs : List Json),
      (name, .obj afs) ∈ fields → name ≠ "id" → name ≠ "type" →
      objLookup afs "type" = some (.str GeoPointType) →
      objLookup afs "value" = some (.arr xs) →
      ∃ er, Entity.UnmarshalJSON (.obj fields) = .error er) := by
  refine ⟨rfl, rfl, rfl, rfl, ?_⟩
  intro fields afs name xs hmem hid htyp hty hval
  exact unmarshal_error_of_bad_attr fields afs name hmem hid htyp
    (attrStep_nonstring_error afs GeoPointType (.arr xs) hty hval (fun s => by simp) (Or.inr rfl))

/-- C9 witness: the theorem applied at a concrete document whose
geo:point value is a JSON array. -/
theorem c9_geo_point_codec_witness :
    ∃ er, Entity.UnmarshalJSON (.obj [("id", .str "Room1"),
      ("location", .obj [("type", .str GeoPointType), ("value", .arr [.num 4, .num 2])])])
      = .error er :=
  c9_geo_point_codec.2.2.2.2
    [("id", .str "Room1"),
      ("location", .obj [("type", .str GeoPointType), ("value", .arr [.num 4, .num 2])])]
    [("type", .str GeoPointType), ("value", .arr [.num 4, .num 2])]
    "location" [.num 4, .num 2]
    (List.Mem.tail _ (List.Mem.head _)) (by decide) (by decide) rfl rfl

/-- C4 (code bug): the overflow guard `f > 0 && int(f) < 0` in
`GetAsInteger` only catches positive overflow. The value `-1e19` is a
genuine float64 below the int64 range, yet `GetAsInteger` silently
returns `math.MinInt64` with no error, while the symmetric `1e19`
correctly fails with the out-of-range error. -/
theorem c4_negative_overflow_silent :
    IsF64 (-(10 ^ 19 : Rat)) ∧
    (NewAttribute IntegerType (.float (-(10 ^ 19)))).GetAsInteger = .ok (-(2 ^ 63)) ∧
    (NewAttribute IntegerType (.float (10 ^ 19))).GetAsInteger
      = .err (.msg "integer out of range") := by
  refine ⟨Or.inr ⟨-4882812500000000, 11, ?_, by norm_num, by norm_num, ?_⟩, rfl, rfl⟩
  · rw [show ((11 : Int)) = ((11 : Nat) : Int) from rfl, zpow_natCast]
    norm_num
  · rw [abs_of_nonpos (by norm_num),
      show ((1024 : Int)) = ((1024 : Nat) : Int) from rfl, zpow_natCast]
    norm_num

/-- C1 (amended): for every entity built by `NewEntity` followed only by
successful typed setter calls whose arguments the codec can carry exactly
— numbers, floats and geo coordinates that are finite float64 values
(NaN and the infinities are rejected by Go's encoder and carry no JSON
form), integers of magnitude at most `2 ^ 53`, calendar-valid
millisecond-precision times with whole-minute zone offsets smaller than
one day and years in `[0, 9999]`, geometries whose type tag selects a
coordinate field with a well-formed float64 coordinate payload (or an
unknown tag with no coordinates), and structured values that are generic
document data without top-level number overflow — and whose attribute
names do not case-fold to the fixed field names `id` or `type` (Go's
first decode pass matches struct fields case-insensitively), decoding
the document produced by encoding the entity yields an entity with the
same id, the same type, and the same attribute-name list, and for each
attribute the typed getter matching the setter returns the value
originally set, floating-point values compared by exact equality. -/
theorem c1_round_trip_typed_setters (id ty : String) (e0 : Entity) (ops : List SetterOp)
    (hnew : NewEntity id ty = .ok e0)
    (hgood : ∀ op ∈ ops, OpGood op)
    (hnames : ∀ op ∈ ops, eqFoldName op.opName "id" = false ∧
      eqFoldName op.opName "type" = false)
    (hsucc : (applyOps e0 ops).2 = true) :
    ∃ j e2, Entity.MarshalJSON (applyOps e0 ops).1 = .ok j ∧
      Entity.UnmarshalJSON j = .ok e2 ∧
      e2.id = (applyOps e0 ops).1.id ∧
      e2.type = (applyOps e0 ops).1.type ∧
      e2.attributes.map Prod.fst = (applyOps e0 ops).1.attributes.map Prod.fst ∧
      List.Forall₂ (fun (p r : String × Attribute) =>
        r.1 = p.1 ∧ AttrValueRoundtrip r.2 p.2.value)
        (applyOps e0 ops).1.attributes e2.attributes := by
  have he0 := newEntity_ok id ty e0 hnew
  obtain ⟨hid, htype, hgoodE, hfoldE, hnodupE⟩ := applyOps_invariant ops e0 hgood hnames hsucc
    (by rw [he0]; intro p hp; cases hp)
    (by rw [he0]; intro p hp; cases hp)
    (by rw [he0]; exact List.nodup_nil)
  obtain ⟨fields, hmar, hkeys, hne, hrel⟩ := entityMarshal_good (applyOps e0 ops).1 hgoodE
  have hnodupF : (fields.map Prod.fst).Nodup := by
    rw [hkeys]
    exact hnodupE
  have hneF : ∀ p ∈ fields, eqFoldName (p : String × Json).1 "id" = false ∧
      eqFoldName p.1 "type" = false := by
    intro p hp
    have h1 : p.1 ∈ (applyOps e0 ops).1.attributes.map Prod.fst := by
      rw [← hkeys]
      exact List.mem_map.mpr ⟨p, hp, rfl⟩
    obtain ⟨q, hq, hqe⟩ := List.mem_map.mp h1
    rw [← hqe]
    exact hfoldE q hq
  obtain ⟨out, hun, hrel2⟩ := entityUnmarshal_good (applyOps e0 ops).1.id
    (applyOps e0 ops).1.type fields hneF (forall2_attrStep_ok _ _ hrel) hnodupF
  refine ⟨_, ⟨(applyOps e0 ops).1.id, (applyOps e0 ops).1.type, out⟩, hmar, hun, rfl, rfl,
    ?_, forall2_compose _ _ _ hrel hrel2⟩
  show out.map Prod.fst = (applyOps e0 ops).1.attributes.map Prod.fst
  rw [forall2_decode_keys fields out hrel2, hkeys]

/-- C1 witness: the theorem applied to the entity `Room1` of type `Room`
with one string attribute set. -/
theorem c1_round_trip_typed_setters_witness :
    ∃ j e2, Entity.MarshalJSON (applyOps ⟨"Room1", "Room", []⟩
        [SetterOp.str "temperature" "hot"]).1 = .ok j ∧
      Entity.UnmarshalJSON j = .ok e2 ∧
      e2.id = (applyOps ⟨"Room1", "Room", []⟩ [SetterOp.str "temperature" "hot"]).1.id ∧
      e2.type = (applyOps ⟨"Room1", "Room", []⟩ [SetterOp.str "temperature" "hot"]).1.type ∧
      e2.attributes.map Prod.fst
        = (applyOps ⟨"Room1", "Room", []⟩
            [SetterOp.str "temperature" "hot"]).1.attributes.map Prod.fst ∧
      List.Forall₂ (fun (p r : String × Attribute) =>
        r.1 = p.1 ∧ AttrValueRoundtrip r.2 p.2.value)
        (applyOps ⟨"Room1", "Room", []⟩ [SetterOp.str "temperature" "hot"]).1.attributes
        e2.attributes :=
  c1_round_trip_typed_setters "Room1" "Room" ⟨"Room1", "Room", []⟩
    [SetterOp.str "temperature" "hot"] rfl
    (by
      intro op hop
      rw [List.mem_singleton] at hop
      subst hop
      exact trivial)
    (by
      intro op hop
      rw [List.mem_singleton] at hop
      subst hop
      exact ⟨rfl, rfl⟩)
    rfl

/-- C1 counterexample: the literal round-trip claim fails for plain
`int` values. `SetAttributeAsInteger` with `2 ^ 53 + 1` succeeds, but the
value travels through JSON as a number and is read back through float64,
so the decoded entity returns `2 ^ 53` from `GetAttributeAsInteger`: a
different integer, silently. -/
theorem c1_integer_silent_rounding :
    ((sampleEntity.SetAttributeAsInteger "bignum" 9007199254740993).2 = none) ∧
    ∃ j e2,
      Entity.MarshalJSON (sampleEntity.SetAttributeAsInteger "bignum" 9007199254740993).1
        = .ok j ∧
      Entity.UnmarshalJSON j = .ok e2 ∧
      e2.GetAttributeAsInteger "bignum" = .ok 9007199254740992 ∧
      ((9007199254740992 : Int) == 9007199254740993) = false :=
  ⟨rfl,
    .obj [("bignum", .obj [("type", .str IntegerType),
      ("value", .num (mkRat 9007199254740993 1))]),
      ("id", .str "Room1"), ("type", .str "Room")],
    ⟨"Room1", "Room", [("bignum",
      ⟨IntegerType, .float (f64round (mkRat 9007199254740993 1)), []⟩)]⟩,
    rfl, rfl, rfl, rfl⟩

end NgsiV2
